import Mathlib

/- Verification development for the RSS-Dumper feed-to-archive pipeline
   (rssarchiver_core.py, utils/dump_lock.py, rssdumper.py).

   Modelling conventions:
   * a Python `str` is a sequence of code points, embedded as `List Char`;
   * `None`-able values are `Option`s; a fallible download is an oracle
     `PyStr → Option PyStr` (URL to local relative path), mirroring the
     "downloader stub" of the specification's testable properties;
   * the on-disk state visible to `download_file` is the list of relative
     paths that exist under the archive root;
   * Python's process-seeded built-in `hash` is a parameter `h : PyStr → Nat`
     standing for `abs ∘ hash` in one interpreter process. -/

namespace RSSDumper

abbrev PyStr := List Char

def pys (s : String) : PyStr := s.data

/-- Whitespace as matched by CPython's `str.isspace` and the `re` module's
`\s` class for text patterns: ASCII whitespace, the C1 separators, and the
Unicode space characters. -/
def pyIsSpace (c : Char) : Bool :=
  let n := c.toNat
  n == 0x20 || n == 0x9 || n == 0xa || n == 0xd || n == 0xb || n == 0xc ||
  decide (0x1c ≤ n ∧ n ≤ 0x1f) || n == 0x85 || n == 0xa0 || n == 0x1680 ||
  decide (0x2000 ≤ n ∧ n ≤ 0x200a) || n == 0x2028 || n == 0x2029 ||
  n == 0x202f || n == 0x205f || n == 0x3000

def pyLower (l : PyStr) : PyStr := l.map Char.toLower

/-- Python `s.split(sep, 1)` for a one-character separator: `none` when the
separator does not occur. -/
def splitOnce (c : Char) : PyStr → Option (PyStr × PyStr)
  | [] => none
  | x :: r =>
    if x = c then some ([], r)
    else (splitOnce c r).map (fun p => (x :: p.1, p.2))

/-- Splits `l` as `before ++ '/' :: after` around the LAST slash (`after` is
slash-free); `none` when there is no slash. Models `s.rfind('/')`. -/
def splitAtLastSlash : PyStr → Option (PyStr × PyStr)
  | [] => none
  | c :: r =>
    match splitAtLastSlash r with
    | some (a, b) => some (c :: a, b)
    | none => if c = '/' then some ([], r) else none

/-- Characters legal in a URL scheme (`urllib.parse.scheme_chars`). -/
def isSchemeChar (c : Char) : Bool :=
  c.isAlpha || c.isDigit || c == '+' || c == '-' || c == '.'

structure UrlParts where
  scheme : PyStr
  netloc : PyStr
  path : PyStr
  params : PyStr
  query : PyStr
  fragment : PyStr
deriving DecidableEq, Repr

/-- `urllib.parse.urlsplit` (modern CPython): strip leading C0-control/space,
remove tab/CR/LF, split off scheme, `//netloc`, fragment and query. Returns
(scheme, netloc, rest-path, query, fragment). The IPv6 bracket validation
(which only raises `ValueError`) is not modelled. -/
def urlsplitPy (url0 : PyStr) (defaultScheme : PyStr) :
    PyStr × PyStr × PyStr × PyStr × PyStr :=
  let url1 := url0.dropWhile (fun c => decide (c.toNat ≤ 0x20))
  let url2 := url1.filter (fun c => !(c == '\t' || c == '\r' || c == '\n'))
  let schemeRest : PyStr × PyStr :=
    match splitOnce ':' url2 with
    | some (before, after) =>
      if before ≠ [] ∧ (∃ c, before.head? = some c ∧ c.isAlpha) ∧
          before.all isSchemeChar = true then
        (pyLower before, after)
      else (defaultScheme, url2)
    | none => (defaultScheme, url2)
  let scheme := schemeRest.1
  let rest := schemeRest.2
  let netlocRest : PyStr × PyStr :=
    if rest.take 2 = ['/', '/'] then
      let after := rest.drop 2
      let nl := after.takeWhile (fun c => !(c == '/' || c == '?' || c == '#'))
      (nl, after.drop nl.length)
    else ([], rest)
  let netloc := netlocRest.1
  let rest2 := netlocRest.2
  let restFrag : PyStr × PyStr :=
    match splitOnce '#' rest2 with
    | some (a, b) => (a, b)
    | none => (rest2, [])
  let restQuery : PyStr × PyStr :=
    match splitOnce '?' restFrag.1 with
    | some (a, b) => (a, b)
    | none => (restFrag.1, [])
  (scheme, netloc, restQuery.1, restQuery.2, restFrag.2)

/-- `urllib.parse._splitparams`: split `;params` off the last path segment. -/
def splitparams (url : PyStr) : PyStr × PyStr :=
  match splitAtLastSlash url with
  | some (a, b) =>
    match splitOnce ';' b with
    | some (b1, b2) => (a ++ '/' :: b1, b2)
    | none => (url, [])
  | none =>
    match splitOnce ';' url with
    | some (u1, u2) => (u1, u2)
    | none => (url, [])

/-- `urllib.parse.urlparse`. -/
def urlparsePy (url : PyStr) (defaultScheme : PyStr) : UrlParts :=
  let (scheme, netloc, p, query, fragment) := urlsplitPy url defaultScheme
  let pathParams := if p.contains ';' then splitparams p else (p, [])
  ⟨scheme, netloc, pathParams.1, pathParams.2, query, fragment⟩

/-- Splits a string on a character, Python `s.split(c)` style (never returns
an empty list of parts). -/
def splitOnChar (c : Char) : PyStr → List PyStr
  | [] => [[]]
  | x :: r =>
    match splitOnChar c r with
    | [] => [[x]]
    | s :: ss => if x = c then [] :: s :: ss else (x :: s) :: ss

/-- `pathlib.PurePosixPath(p).name`: the final path component; empty and `.`
segments vanish, `..` is kept. -/
def pathName (p : PyStr) : PyStr :=
  let segs := (splitOnChar '/' p).filter (fun s => s ≠ [] ∧ s ≠ ['.'])
  match segs.getLast? with
  | some s => s
  | none => []

/-- `get_safe_filename(url, default_ext)` from rssarchiver_core.py.
`h` stands for `abs ∘ hash` of the running interpreter process (CPython's
string hash is siphash keyed by the per-process `PYTHONHASHSEED` salt). -/
def get_safe_filename (h : PyStr → Nat) (url : PyStr) (default_ext : PyStr) :
    PyStr :=
  let parsed := urlparsePy url []
  let filename := pathName parsed.path
  let filename :=
    if filename = [] ∨ ¬ filename.contains '.' then
      pys "file_" ++ (toString (h url % 1000000)).data ++ '.' :: default_ext
    else filename
  let safe := filename.filter
    (fun c => decide (32 ≤ c.toNat) && !(c == '\x00' || c == '\r' || c == '\n'))
  safe.map (fun c => if c = '/' then '∕' else c)

/-- C3: for every per-process hash function, input URL (including URLs with
query strings, no extension, non-ASCII segments or embedded control
characters) and default extension, `get_safe_filename` returns a non-empty
string containing no `/` and no code point below 32 (hence no NUL, CR, LF). -/
theorem C3_get_safe_filename_invariant (h : PyStr → Nat) (url dext : PyStr) :
    get_safe_filename h url dext ≠ [] ∧
    ∀ c ∈ get_safe_filename h url dext, c ≠ '/' ∧ 32 ≤ c.toNat := by
  rw [show get_safe_filename h url dext =
      ((if pathName (urlparsePy url []).path = [] ∨
            ¬ (pathName (urlparsePy url []).path).contains '.' then
          pys "file_" ++ (toString (h url % 1000000)).data ++ '.' :: dext
        else pathName (urlparsePy url []).path).filter
          (fun c => decide (32 ≤ c.toNat) &&
            !(c == '\x00' || c == '\r' || c == '\n'))).map
          (fun c => if c = '/' then '∕' else c) from rfl]
  set filename := pathName (urlparsePy url []).path with hfn
  constructor
  · -- non-emptiness: the kept character is '.' or the leading 'f'
    by_cases hc : filename = [] ∨ ¬ filename.contains '.'
    · rw [if_pos hc]
      intro hnil
      rw [List.map_eq_nil_iff] at hnil
      have : 'f' ∈ (pys "file_" ++ (toString (h url % 1000000)).data ++
          '.' :: dext).filter
          (fun c => decide (32 ≤ c.toNat) &&
            !(c == '\x00' || c == '\r' || c == '\n')) := by
        rw [List.mem_filter]
        refine ⟨by simp [pys], by decide⟩
      rw [hnil] at this
      exact absurd this (List.not_mem_nil _)
    · push_neg at hc
      obtain ⟨hne, hdot⟩ := hc
      rw [if_neg (by push_neg; exact ⟨hne, hdot⟩)]
      intro hnil
      rw [List.map_eq_nil_iff] at hnil
      have hmem : '.' ∈ filename := by simpa using hdot
      have : '.' ∈ filename.filter
          (fun c => decide (32 ≤ c.toNat) &&
            !(c == '\x00' || c == '\r' || c == '\n')) := by
        rw [List.mem_filter]
        exact ⟨hmem, by decide⟩
      rw [hnil] at this
      exact absurd this (List.not_mem_nil _)
  · intro c hcmem
    rw [List.mem_map] at hcmem
    obtain ⟨c', hc'mem, hc'eq⟩ := hcmem
    rw [List.mem_filter] at hc'mem
    have hge : 32 ≤ c'.toNat := by
      have := hc'mem.2
      simp only [Bool.and_eq_true, decide_eq_true_eq] at this
      exact this.1
    by_cases hslash : c' = '/'
    · subst hc'eq
      simp only [hslash, if_pos]
      exact ⟨by decide, by decide⟩
    · subst hc'eq
      simp only [if_neg hslash]
      exact ⟨hslash, hge⟩

/-- C3 witness: the invariant applied at a concrete URL and character. -/
theorem C3_witness :
    get_safe_filename (fun _ => 0) (pys "http://x/a.png") (pys "bin") ≠ [] ∧
    ('a' ≠ '/' ∧ 32 ≤ 'a'.toNat) :=
  ⟨(C3_get_safe_filename_invariant (fun _ => 0) (pys "http://x/a.png")
      (pys "bin")).1,
   (C3_get_safe_filename_invariant (fun _ => 0) (pys "http://x/a.png")
      (pys "bin")).2 'a' (by decide)⟩

/-- C9: the fallback filename `file_<abs(hash(url)) mod 1000000>.<ext>` is a
function of the per-process string hash: two processes whose salted `hash`
assigns the URL different values (CPython randomizes `PYTHONHASHSEED` by
default) synthesize different filenames for the same extensionless URL, so the
name is not stable across runs. -/
theorem C9_synth_filename_depends_on_process_hash :
    get_safe_filename (fun _ => 1) (pys "http://example.com/data") (pys "bin")
      = pys "file_1.bin" ∧
    get_safe_filename (fun _ => 2) (pys "http://example.com/data") (pys "bin")
      = pys "file_2.bin" ∧
    get_safe_filename (fun _ => 1) (pys "http://example.com/data") (pys "bin")
      ≠ get_safe_filename (fun _ => 2) (pys "http://example.com/data")
          (pys "bin") :=
  ⟨by decide, by decide, by decide⟩

/-! ## Media Downloader (`download_file`, `download_file_with_warc`)

The filesystem under the archive root is the list `fs` of relative paths that
exist; the HTTP layer is an oracle `fetch : PyStr → Option PyStr` (`none`
models `requests.get` raising or a non-2xx status via `raise_for_status`).
Each call returns the Python result, the new filesystem, and how many HTTP
fetches it performed. -/

def pyEndsWith (suffix l : PyStr) : Bool := suffix.isSuffixOf l

def pyStartsWith (pre l : PyStr) : Bool := pre.isPrefixOf l

/-- The target filename `download_file` computes: the sanitized name, with an
icon extension rewritten to `.png` when ICO conversion is active
(`convert_ico` and Pillow available). -/
def targetFilename (h : PyStr → Nat) (url : PyStr) (convert_ico pil : Bool) :
    PyStr :=
  let filename := get_safe_filename h url (pys "bin")
  let is_ico := pyEndsWith (pys ".ico") (pyLower filename)
  if is_ico && convert_ico && pil then
    filename.take (filename.length - 4) ++ pys ".png"
  else filename

/-- The relative path `download_file` stores and returns. -/
def targetRelPath (h : PyStr → Nat) (url : PyStr) (subfolder : Option PyStr)
    (convert_ico pil : Bool) : PyStr :=
  match subfolder with
  | some sf => sf ++ '/' :: targetFilename h url convert_ico pil
  | none => targetFilename h url convert_ico pil

/-- `download_file(file_url, output_dir, subfolder, referer, convert_ico)`.
Returns (result, filesystem after the call, number of HTTP fetches). -/
def download_file (h : PyStr → Nat) (fetch : PyStr → Option PyStr)
    (fs : List PyStr) (file_url : PyStr) (subfolder : Option PyStr)
    (convert_ico pil : Bool) : Option PyStr × List PyStr × Nat :=
  if file_url = [] then (none, fs, 0)
  else if !(pyStartsWith (pys "http://") file_url ||
      pyStartsWith (pys "https://") file_url) then (none, fs, 0)
  else
    let relative_path := targetRelPath h file_url subfolder convert_ico pil
    if relative_path ∈ fs then (some relative_path, fs, 0)
    else
      match fetch file_url with
      | none => (none, fs, 1)
      | some _content => (some relative_path, fs ++ [relative_path], 1)

/-- `download_file_with_warc(...)`: identical control flow; additionally hands
the HTTP exchange to the WARC writer when one is active, counted in the fourth
component (zero on the existence short-circuit). -/
def download_file_with_warc (h : PyStr → Nat) (fetch : PyStr → Option PyStr)
    (fs : List PyStr) (file_url : PyStr) (subfolder : Option PyStr)
    (convert_ico pil : Bool) (warc : Bool) :
    Option PyStr × List PyStr × Nat × Nat :=
  if file_url = [] then (none, fs, 0, 0)
  else if !(pyStartsWith (pys "http://") file_url ||
      pyStartsWith (pys "https://") file_url) then (none, fs, 0, 0)
  else
    let relative_path := targetRelPath h file_url subfolder convert_ico pil
    if relative_path ∈ fs then (some relative_path, fs, 0, 0)
    else
      match fetch file_url with
      | none => (none, fs, 1, 0)
      | some _content =>
        (some relative_path, fs ++ [relative_path], 1, if warc then 1 else 0)

/-- C1 counterexample: the claim quantifies over every URL, but (a) for a
non-HTTP(S) URL `download_file` returns `None` even when the target file
already exists on disk, and (b) for an HTTP URL whose fetch fails, two calls
leave zero (not one) files on disk and the second call fetches again. -/
theorem C1_counterexample :
    (download_file (fun _ => 0) (fun _ => some (pys "bytes"))
        [pys "images/a.png"] (pys "ftp://x/a.png") (some (pys "images"))
        true false
      = (none, [pys "images/a.png"], 0)) ∧
    (download_file (fun _ => 0) (fun _ => none) [] (pys "http://x/a.png")
        (some (pys "images")) true false
      = (none, [], 1)) ∧
    (download_file (fun _ => 0) (fun _ => none) [] (pys "http://x/a.png")
        (some (pys "images")) true false
      |>.2.1) = [] :=
  ⟨by decide, by decide, by decide⟩

/-- C1 (amended): for every HTTP(S) URL, if the computed target file already
exists the relative path is returned with no fetch and no filesystem change;
and when it does not exist and the fetch succeeds, calling `download_file`
twice writes exactly one file and the second call performs zero fetches.
`download_file_with_warc` short-circuits identically (no fetch, no WARC
record). -/
theorem C1_download_file_idempotent (h : PyStr → Nat)
    (fetch : PyStr → Option PyStr) (fs : List PyStr) (url : PyStr)
    (sf : Option PyStr) (ci pil : Bool) (warc : Bool)
    (hhttp : pyStartsWith (pys "http://") url = true ∨
      pyStartsWith (pys "https://") url = true) :
    (targetRelPath h url sf ci pil ∈ fs →
      download_file h fetch fs url sf ci pil
        = (some (targetRelPath h url sf ci pil), fs, 0) ∧
      download_file_with_warc h fetch fs url sf ci pil warc
        = (some (targetRelPath h url sf ci pil), fs, 0, 0)) ∧
    (targetRelPath h url sf ci pil ∉ fs → ∀ content,
      fetch url = some content →
      download_file h fetch fs url sf ci pil
        = (some (targetRelPath h url sf ci pil),
           fs ++ [targetRelPath h url sf ci pil], 1) ∧
      download_file h fetch (fs ++ [targetRelPath h url sf ci pil]) url sf
          ci pil
        = (some (targetRelPath h url sf ci pil),
           fs ++ [targetRelPath h url sf ci pil], 0)) := by
  have hurl : url ≠ [] := by
    intro hnil
    rcases hhttp with hp | hp <;> (rw [hnil] at hp; exact absurd hp (by decide))
  have hcond : (!(pyStartsWith (pys "http://") url ||
      pyStartsWith (pys "https://") url)) = false := by
    rcases hhttp with hp | hp <;> simp [hp]
  constructor
  · intro hexists
    constructor
    · unfold download_file
      rw [if_neg hurl, if_neg (by rw [hcond]; exact Bool.false_ne_true)]
      exact if_pos hexists
    · unfold download_file_with_warc
      rw [if_neg hurl, if_neg (by rw [hcond]; exact Bool.false_ne_true)]
      exact if_pos hexists
  · intro hmiss content hfetch
    constructor
    · unfold download_file
      rw [if_neg hurl, if_neg (by rw [hcond]; exact Bool.false_ne_true),
        if_neg hmiss, hfetch]
    · unfold download_file
      rw [if_neg hurl, if_neg (by rw [hcond]; exact Bool.false_ne_true)]
      exact if_pos (List.mem_append_right fs (List.mem_singleton_self _))

/-- C1 witness: concrete second call on the filesystem produced by a first
successful call returns the path with zero fetches, and the two calls leave
exactly one file. -/
theorem C1_witness :
    download_file (fun _ => 0) (fun _ => some (pys "bytes"))
        [pys "images/a.png"] (pys "http://x/a.png") (some (pys "images"))
        true false
      = (some (pys "images/a.png"), [pys "images/a.png"], 0) := by
  have h := (C1_download_file_idempotent (fun _ => 0)
    (fun _ => some (pys "bytes")) [pys "images/a.png"] (pys "http://x/a.png")
    (some (pys "images")) true false false (Or.inl (by decide))).1
    (by decide)
  have heq : targetRelPath (fun _ => 0) (pys "http://x/a.png")
      (some (pys "images")) true false = pys "images/a.png" := by decide
  rw [heq] at h
  exact h.1

/-! ## Archive lock (`utils/dump_lock.py` `DumpLock_Basic`, `rssdumper.main`)

The observable state is whether `dumping.lock` exists in the archive root. -/

structure LockState where
  lockPresent : Bool
deriving DecidableEq, Repr

inductive LockResult where
  /-- `__enter__` raised `AlreadyRunningError`. -/
  | alreadyRunning
  /-- `__enter__` returned; the lock file now exists. -/
  | acquired (st : LockState)
deriving DecidableEq, Repr

/-- `DumpLock_Basic.__enter__`: if the lock file exists, print it and raise
`AlreadyRunningError` (leaving the file in place); otherwise create it. -/
def lockEnter (st : LockState) : LockResult :=
  if st.lockPresent then .alreadyRunning
  else .acquired { lockPresent := true }

/-- `DumpLock_Basic.__exit__`: remove the lock file when present. -/
def lockExit (_st : LockState) : LockState :=
  { lockPresent := false }

/-- `rssdumper.main` lines 110-116: `with DumpLock(str(output_dir)): pass` —
the lock is entered and exited immediately, BEFORE any archive writing; on
`AlreadyRunningError` the run exits. Returns the state main leaves behind
when it then proceeds to write the archive. -/
def mainLockCeremony (st : LockState) : Option LockState :=
  match lockEnter st with
  | .alreadyRunning => none
  | .acquired st' => some (lockExit st')

/-- C2: `DumpLock_Basic` itself excludes a second holder (a second enter on a
held lock fails fast with the distinguishable `AlreadyRunningError`, leaving
the holder's lock file intact) — but `rssdumper.main` releases the lock
immediately (`with DumpLock(...): pass`), so while the first run is writing
the archive the lock file is gone and a second run's acquisition SUCCEEDS,
contradicting the claimed cross-run mutual exclusion during writing. -/
theorem C2_lock_released_before_writing :
    lockEnter { lockPresent := true } = .alreadyRunning ∧
    mainLockCeremony { lockPresent := false }
      = some { lockPresent := false } ∧
    lockEnter { lockPresent := false }
      = .acquired { lockPresent := true } :=
  ⟨rfl, rfl, rfl⟩

/-! ## `urllib.parse.urljoin` -/

def uses_relative : List PyStr :=
  [pys "", pys "ftp", pys "http", pys "gopher", pys "nntp", pys "imap",
   pys "wais", pys "file", pys "https", pys "shttp", pys "mms",
   pys "prospero", pys "rtsp", pys "rtspu", pys "sftp", pys "svn",
   pys "svn+ssh", pys "ws", pys "wss"]

def uses_netloc : List PyStr :=
  [pys "", pys "ftp", pys "http", pys "gopher", pys "nntp", pys "telnet",
   pys "imap", pys "wais", pys "file", pys "mms", pys "https", pys "shttp",
   pys "snews", pys "prospero", pys "rtsp", pys "rtspu", pys "rsync",
   pys "svn", pys "svn+ssh", pys "sftp", pys "nfs", pys "git",
   pys "git+ssh", pys "ws", pys "wss", pys "itms-services"]

def urlunsplitPy (scheme netloc url query fragment : PyStr) : PyStr :=
  let url :=
    if netloc ≠ [] ∨ (url ≠ [] ∧ url.take 2 = ['/', '/']) then
      let url2 := if url ≠ [] ∧ url.take 1 ≠ ['/'] then '/' :: url else url
      pys "//" ++ netloc ++ url2
    else url
  let url := if scheme ≠ [] then scheme ++ ':' :: url else url
  let url := if query ≠ [] then url ++ '?' :: query else url
  if fragment ≠ [] then url ++ '#' :: fragment else url

def urlunparsePy (p : UrlParts) : PyStr :=
  let url := if p.params ≠ [] then p.path ++ ';' :: p.params else p.path
  urlunsplitPy p.scheme p.netloc url p.query p.fragment

/-- `segments[1:-1] = filter(None, segments[1:-1])`: drop empty strings from
everything but the first and last element. -/
def filterMiddle (segs : List PyStr) : List PyStr :=
  match segs with
  | [] => []
  | a :: rest =>
    match rest.getLast? with
    | none => [a]
    | some lastSeg =>
      a :: (rest.dropLast.filter (fun s => s ≠ [])) ++ [lastSeg]

/-- `urllib.parse.urljoin(base, url)` (modern CPython). -/
def urljoin (base url : PyStr) : PyStr :=
  if base = [] then url
  else if url = [] then base
  else
    let b := urlparsePy base []
    let u := urlparsePy url b.scheme
    if u.scheme ≠ b.scheme ∨ u.scheme ∉ uses_relative then url
    else if u.scheme ∈ uses_netloc ∧ u.netloc ≠ [] then
      urlunparsePy u
    else
      let netloc := if u.scheme ∈ uses_netloc then b.netloc else u.netloc
      if u.path = [] ∧ u.params = [] then
        let query := if u.query = [] then b.query else u.query
        urlunparsePy ⟨u.scheme, netloc, b.path, b.params, query, u.fragment⟩
      else
        let base_parts := splitOnChar '/' b.path
        let base_parts :=
          if base_parts.getLast? ≠ some [] then base_parts.dropLast
          else base_parts
        let segments :=
          if u.path.take 1 = ['/'] then splitOnChar '/' u.path
          else filterMiddle (base_parts ++ splitOnChar '/' u.path)
        let resolved := segments.foldl
          (fun acc seg =>
            if seg = pys ".." then acc.dropLast
            else if seg = ['.'] then acc
            else acc ++ [seg]) []
        let resolved :=
          if segments.getLast? = some ['.'] ∨
              segments.getLast? = some (pys "..") then resolved ++ [[]]
          else resolved
        urlunparsePy
          ⟨u.scheme, netloc, List.intercalate ['/'] resolved, u.params,
           u.query, u.fragment⟩

/-! ## HTML image rewriter (`extract_and_download_images_in_html`)

The pattern is the file's `r'<img\s+[^>]*src\s*=\s*["...]([^"...]+)["...][^>]*>'`
compiled with IGNORECASE (the quote classes hold the double and single
quote). For a fixed start position the backtracking search is deterministic:
the leading `\s+` needs one whitespace character right after `<img` (anything
further it could consume, the following greedy `[^>]*` can also consume), the
greedy `[^>]*` puts `src` at the LAST position inside the run of non-`>`
characters where the remainder matches, `\s*`/`=`/quote are forced, the
greedy `([^"...]+)` runs exactly up to the next quote character of either
kind, and the trailing `[^>]*>` consumes up to and including the next `>`. -/

def dquote : Char := Char.ofNat 34

def squote : Char := Char.ofNat 39

def isQuote (c : Char) : Bool := c == dquote || c == squote

/-- Consume a case-insensitive literal (given in lowercase), returning the
remaining suffix. -/
def dropCILit : PyStr → PyStr → Option PyStr
  | [], l => some l
  | p :: ps, c :: cs => if c.toLower = p then dropCILit ps cs else none
  | _ :: _, [] => none

/-- Consume `[^>]*>`: everything up to and including the first `>`. -/
def dropThroughGt : PyStr → Option PyStr
  | [] => none
  | c :: r => if c = '>' then some r else dropThroughGt r

/-- Match `src\s*=\s*["...]([^"...]+)["...][^>]*>` at the head of `t`;
returns (remaining suffix after the final `>`, captured group 1). -/
def tryRestAt (t : PyStr) : Option (PyStr × PyStr) :=
  match dropCILit (pys "src") t with
  | none => none
  | some t1 =>
    match t1.dropWhile pyIsSpace with
    | [] => none
    | c :: t3 =>
      if c = '=' then
        match t3.dropWhile pyIsSpace with
        | [] => none
        | q :: t5 =>
          if isQuote q then
            match t5.dropWhile (fun c => !(isQuote c)) with
            | [] => none
            | q2 :: t6 =>
              if t5.takeWhile (fun c => !(isQuote c)) ≠ [] ∧
                  isQuote q2 = true then
                match dropThroughGt t6 with
                | some rem => some (rem, t5.takeWhile (fun c => !(isQuote c)))
                | none => none
              else none
          else none
      else none

/-- Backtracking search for the `src` attribute start: positions `j, j-1,
..., 1` (offsets into the text following `<img`), largest first, as the
greedy `[^>]*` explores them. -/
def searchSrc (s : PyStr) : Nat → Option (PyStr × PyStr)
  | 0 => none
  | j + 1 =>
    match tryRestAt (s.drop (j + 1)) with
    | some r => some r
    | none => searchSrc s j

/-- Attempt the image-tag pattern at the start of `l`; returns (match length,
group 1). -/
def matchAt (l : PyStr) : Option (Nat × PyStr) :=
  match dropCILit (pys "<img") l with
  | none => none
  | some s =>
    match s with
    | [] => none
    | c :: _ =>
      if pyIsSpace c then
        match searchSrc s (s.takeWhile (fun c => !(c == '>'))).length with
        | some (rem, g) => some (l.length - rem.length, g)
        | none => none
      else none

theorem dropWhile_length_le (p : Char → Bool) (l : PyStr) :
    (l.dropWhile p).length ≤ l.length := by
  induction l with
  | nil => simp
  | cons c cs ih =>
    rw [List.dropWhile_cons]
    by_cases h : p c <;> simp [h]
    omega

theorem dropCILit_length {p l r : PyStr} (h : dropCILit p l = some r) :
    l.length = p.length + r.length := by
  induction p generalizing l with
  | nil => cases l <;> simp [dropCILit] at h <;> simp [← h]
  | cons x xs ih =>
    cases l with
    | nil => simp [dropCILit] at h
    | cons c cs =>
      unfold dropCILit at h
      by_cases hx : c.toLower = x
      · rw [if_pos hx] at h
        have := ih h
        simp [this]
        omega
      · rw [if_neg hx] at h
        exact absurd h (by simp)

theorem dropThroughGt_length {l r : PyStr} (h : dropThroughGt l = some r) :
    r.length < l.length := by
  induction l with
  | nil => simp [dropThroughGt] at h
  | cons c cs ih =>
    unfold dropThroughGt at h
    by_cases hc : c = '>'
    · rw [if_pos hc] at h
      simp at h
      simp [← h]
    · rw [if_neg hc] at h
      have := ih h
      simp
      omega

theorem tryRestAt_length {t rem g : PyStr} (h : tryRestAt t = some (rem, g)) :
    rem.length < t.length := by
  unfold tryRestAt at h
  split at h
  · exact absurd h (by simp)
  · rename_i t1 h1
    have hl1 : t.length = 3 + t1.length := dropCILit_length h1
    split at h
    · exact absurd h (by simp)
    · rename_i c t3 h2
      have hl2 : t3.length < t1.length := by
        have := dropWhile_length_le pyIsSpace t1
        rw [h2] at this
        simp at this
        omega
      split at h
      · split at h
        · exact absurd h (by simp)
        · rename_i q t5 h3
          have hl3 : t5.length < t3.length := by
            have := dropWhile_length_le pyIsSpace t3
            rw [h3] at this
            simp at this
            omega
          split at h
          · split at h
            · exact absurd h (by simp)
            · rename_i q2 t6 h4
              have hl4 : t6.length < t5.length := by
                have := dropWhile_length_le
                  (fun c => !(isQuote c)) t5
                rw [h4] at this
                simp at this
                omega
              split at h
              · split at h
                · rename_i rem2 h5
                  simp at h
                  have hlt := dropThroughGt_length h5
                  rw [h.1] at hlt
                  omega
                · exact absurd h (by simp)
              · exact absurd h (by simp)
          · exact absurd h (by simp)
      · exact absurd h (by simp)

theorem searchSrc_length {s rem g : PyStr} :
    ∀ {n : Nat}, searchSrc s n = some (rem, g) → rem.length + 1 < s.length := by
  intro n
  induction n with
  | zero => intro h; exact absurd h (by simp [searchSrc])
  | succ j ih =>
    intro h
    unfold searchSrc at h
    cases ht : tryRestAt (s.drop (j + 1)) with
    | none =>
      rw [ht] at h
      exact ih h
    | some r =>
      rw [ht] at h
      simp at h
      rw [h] at ht
      have hlt := tryRestAt_length ht
      have hdl : (s.drop (j + 1)).length = s.length - (j + 1) :=
        List.length_drop _ _
      omega

theorem matchAt_bounds {l : PyStr} {len : Nat} {g : PyStr}
    (h : matchAt l = some (len, g)) : 1 ≤ len ∧ len ≤ l.length := by
  unfold matchAt at h
  split at h
  · exact absurd h (by simp)
  · rename_i s h1
    have hl1 : l.length = 4 + s.length := dropCILit_length h1
    split at h
    · exact absurd h (by simp)
    · rename_i c cs
      split at h
      · split at h
        · rename_i rem g2 h2
          simp at h
          have hlt := searchSrc_length h2
          obtain ⟨hlen, hg⟩ := h
          omega
        · exact absurd h (by simp)
      · exact absurd h (by simp)

structure ImgMatch where
  mstart : Nat
  mlen : Nat
  mgroup : PyStr
deriving DecidableEq, Repr

/-- `re.finditer(pattern, html, re.IGNORECASE)`: scan left to right, emit
non-overlapping matches, continue after each match's end. `pos` is the
index of the head of the current suffix within the original string. The
`fuel` argument only bounds the recursion (every step consumes at least one
character, so `fuel = length` is always enough); it keeps the function
structurally recursive and hence kernel-computable. -/
def finditerImgAux : Nat → PyStr → Nat → List ImgMatch
  | 0, _, _ => []
  | _, [], _ => []
  | fuel + 1, c :: rest, pos =>
    match matchAt (c :: rest) with
    | some (len, g) =>
      ⟨pos, len, g⟩ :: finditerImgAux fuel (rest.drop (len - 1)) (pos + len)
    | none => finditerImgAux fuel rest (pos + 1)

def finditerImg (l : PyStr) (pos : Nat) : List ImgMatch :=
  finditerImgAux l.length l pos

/-- Matches are in order, non-overlapping, non-empty and within the first
`N` characters, starting at or after position `p`. -/
inductive Chained (N : Nat) : Nat → List ImgMatch → Prop where
  | nil : ∀ p, p ≤ N → Chained N p []
  | cons : ∀ p m ms, p ≤ m.mstart → 1 ≤ m.mlen → m.mstart + m.mlen ≤ N →
      Chained N (m.mstart + m.mlen) ms → Chained N p (m :: ms)

theorem chained_mono {N p' : Nat} {ms : List ImgMatch}
    (h : Chained N p' ms) {p : Nat} (hp : p ≤ p') : Chained N p ms := by
  cases h with
  | nil _ hle => exact .nil p (le_trans hp hle)
  | cons _ m ms hpm hlen hbound hrest =>
    exact .cons p m ms (le_trans hp hpm) hlen hbound hrest

theorem finditerImgAux_chained :
    ∀ (fuel : Nat) (l : PyStr) (pos : Nat), l.length ≤ fuel →
      Chained (pos + l.length) pos (finditerImgAux fuel l pos) := by
  intro fuel
  induction fuel with
  | zero =>
    intro l pos hl
    have : l = [] := List.eq_nil_of_length_eq_zero (Nat.le_zero.mp hl)
    subst this
    simp [finditerImgAux]
    exact .nil pos (le_refl _)
  | succ n ih =>
    intro l pos hl
    match l with
    | [] =>
      simp [finditerImgAux]
      exact .nil pos (le_refl _)
    | c :: rest =>
      rw [finditerImgAux]
      cases hm : matchAt (c :: rest) with
      | none =>
        have hrec := ih rest (pos + 1) (by simp at hl; omega)
        have heq : pos + 1 + rest.length = pos + (c :: rest).length := by
          simp
          omega
        rw [heq] at hrec
        exact chained_mono hrec (Nat.le_succ pos)
      | some r =>
        obtain ⟨len, g⟩ := r
        obtain ⟨h1, h2⟩ := matchAt_bounds hm
        have hcons : (c :: rest).length = rest.length + 1 := by simp
        rw [hcons] at h2 hl
        have hdl : (rest.drop (len - 1)).length = rest.length + 1 - len := by
          simp
          omega
        have hrec := ih (rest.drop (len - 1)) (pos + len) (by rw [hdl]; omega)
        rw [hdl] at hrec
        have heq : pos + len + (rest.length + 1 - len)
            = pos + (c :: rest).length := by
          rw [hcons]
          omega
        rw [heq] at hrec
        exact .cons pos ⟨pos, len, g⟩ _ (le_refl _) h1
          (by show pos + len ≤ pos + (c :: rest).length; rw [hcons]; omega)
          hrec

theorem finditerImg_chained (l : PyStr) :
    Chained l.length 0 (finditerImg l 0) := by
  have := finditerImgAux_chained l.length l 0 (le_refl _)
  simpa using this

/-- Python `s.replace(old, new)` for non-empty `old`: non-overlapping
occurrences replaced left to right (`fuel` only bounds the recursion; each
step consumes at least one character). -/
def pyReplaceAux (old new : PyStr) : Nat → PyStr → PyStr
  | 0, l => l
  | _, [] => []
  | fuel + 1, c :: r =>
    if old.isPrefixOf (c :: r) then
      new ++ pyReplaceAux old new fuel (r.drop (old.length - 1))
    else c :: pyReplaceAux old new fuel r

/-- Python `s.replace(old, new)` (empty `old` inserts `new` around every
character). -/
def pyReplace (s old new : PyStr) : PyStr :=
  if old = [] then new ++ (s.map (fun c => c :: new)).flatten
  else pyReplaceAux old new s.length s

/-- Python slice-index clamping: `s[:i]`/`s[i:]` treat a negative index as
`max 0 (len + i)` and a large one as `len`. -/
def pyIndexClamp (n : Nat) (i : Int) : Nat :=
  if i < 0 then (↑n + i).toNat else min i.toNat n

/-- One element of the `downloaded` list:
`{'original_url': full_url, 'local_path': local_path}`. -/
structure DlRec where
  original_url : PyStr
  local_path : PyStr
deriving DecidableEq, Repr

/-- The `for match in matches:` loop of `extract_and_download_images_in_html`:
`html` is the original string the match objects refer to; `new_html` and
`offset` evolve exactly as in the source. -/
def rewriteLoop (dl : PyStr → Option PyStr) (base_url html : PyStr) :
    List ImgMatch → PyStr → Int → List DlRec → PyStr × List DlRec
  | [], new_html, _offset, acc => (new_html, acc)
  | m :: ms, new_html, offset, acc =>
    match dl (urljoin base_url m.mgroup) with
    | some lp =>
      if lp ≠ [] then
        rewriteLoop dl base_url html ms
          (new_html.take (pyIndexClamp new_html.length (↑m.mstart + offset))
            ++ pyReplace ((html.drop m.mstart).take m.mlen) m.mgroup lp
            ++ new_html.drop
              (pyIndexClamp new_html.length (↑(m.mstart + m.mlen) + offset)))
          (offset + ↑(pyReplace ((html.drop m.mstart).take m.mlen)
              m.mgroup lp).length - ↑m.mlen)
          (acc ++ [⟨urljoin base_url m.mgroup, lp⟩])
      else rewriteLoop dl base_url html ms new_html offset acc
    | none => rewriteLoop dl base_url html ms new_html offset acc

/-- `extract_and_download_images_in_html(html, base_url, images_dir)`, with
the `download_image` call abstracted as the oracle `dl` (applied to the
`urljoin`-resolved URL). -/
def extract_and_download_images_in_html (dl : PyStr → Option PyStr)
    (base_url html : PyStr) : PyStr × List DlRec :=
  if html = [] then (html, [])
  else rewriteLoop dl base_url html (finditerImg html 0) html 0 []

/-- What one match contributes to the output text: on a truthy download the
tag with every occurrence of the captured URL replaced by the local path,
otherwise the tag unchanged. -/
def replFor (dl : PyStr → Option PyStr) (base_url html : PyStr)
    (m : ImgMatch) : PyStr :=
  match dl (urljoin base_url m.mgroup) with
  | some lp =>
    if lp ≠ [] then
      pyReplace ((html.drop m.mstart).take m.mlen) m.mgroup lp
    else (html.drop m.mstart).take m.mlen
  | none => (html.drop m.mstart).take m.mlen

/-- What one match contributes to the `downloaded` list. -/
def recFor (dl : PyStr → Option PyStr) (base_url : PyStr) (m : ImgMatch) :
    Option DlRec :=
  match dl (urljoin base_url m.mgroup) with
  | some lp =>
    if lp ≠ [] then some ⟨urljoin base_url m.mgroup, lp⟩ else none
  | none => none

/-- Segment-wise description of the rewrite: the text between matches is
copied verbatim from the original; each match contributes `replFor`. -/
def rewriteSpec (dl : PyStr → Option PyStr) (base_url html : PyStr) :
    List ImgMatch → Nat → PyStr
  | [], pos => html.drop pos
  | m :: ms, pos =>
    (html.drop pos).take (m.mstart - pos) ++ replFor dl base_url html m ++
      rewriteSpec dl base_url html ms (m.mstart + m.mlen)

theorem rewriteLoop_eq_spec (dl : PyStr → Option PyStr)
    (base html : PyStr) :
    ∀ (ms : List ImgMatch) (pos : Nat) (A : PyStr) (acc : List DlRec),
      Chained html.length pos ms →
      rewriteLoop dl base html ms (A ++ html.drop pos)
          ((A.length : Int) - (pos : Int)) acc
        = (A ++ rewriteSpec dl base html ms pos,
           acc ++ ms.filterMap (recFor dl base)) := by
  intro ms
  induction ms with
  | nil =>
    intro pos A acc _hch
    simp [rewriteLoop, rewriteSpec]
  | cons m ms ih =>
    intro pos A acc hch
    cases hch with
    | cons _ _ _ hpm hlen hbound hch' =>
      have hposN : pos ≤ html.length := le_trans hpm (by omega)
      rw [rewriteLoop, rewriteSpec]
      cases hdl : dl (urljoin base m.mgroup) with
      | none =>
        dsimp only
        have hreplc : replFor dl base html m
            = (html.drop m.mstart).take m.mlen := by
          rw [replFor, hdl]
        have hrecc : recFor dl base m = none := by
          rw [recFor, hdl]
        rw [hreplc, List.filterMap_cons, hrecc]
        dsimp only
        have hsplit : html.drop pos
            = (html.drop pos).take (m.mstart + m.mlen - pos)
              ++ html.drop (m.mstart + m.mlen) := by
          conv_lhs => rw [← List.take_append_drop
            (m.mstart + m.mlen - pos) (html.drop pos)]
          rw [List.drop_drop]
          congr 2
          omega
        have hlenA : ((A ++ (html.drop pos).take
            (m.mstart + m.mlen - pos)).length : Int)
            - ((m.mstart + m.mlen : Nat) : Int)
            = (A.length : Int) - (pos : Int) := by
          have hlt : ((html.drop pos).take (m.mstart + m.mlen - pos)).length
              = m.mstart + m.mlen - pos := by
            simp
            omega
          simp [hlt]
          omega
        have hrec := ih (m.mstart + m.mlen)
          (A ++ (html.drop pos).take (m.mstart + m.mlen - pos)) acc hch'
        rw [hlenA, List.append_assoc, ← hsplit] at hrec
        rw [hrec]
        have htk : (html.drop pos).take (m.mstart + m.mlen - pos)
            = (html.drop pos).take (m.mstart - pos)
              ++ (html.drop m.mstart).take m.mlen := by
          have hd : html.drop m.mstart
              = (html.drop pos).drop (m.mstart - pos) := by
            rw [List.drop_drop]
            congr 1
            omega
          rw [hd, ← List.take_add]
          congr 1
          omega
        rw [htk]
        congr 1
        simp only [List.append_assoc]
      | some lp =>
        dsimp only
        by_cases hlp : lp ≠ []
        · rw [if_pos hlp]
          have hreplc : replFor dl base html m
              = pyReplace ((html.drop m.mstart).take m.mlen) m.mgroup lp := by
            rw [replFor, hdl]
            dsimp only
            rw [if_pos hlp]
          have hrecc : recFor dl base m
              = some ⟨urljoin base m.mgroup, lp⟩ := by
            rw [recFor, hdl]
            dsimp only
            rw [if_pos hlp]
          rw [hreplc, List.filterMap_cons, hrecc]
          dsimp only
          have hlen1 : (A ++ html.drop pos).length
              = A.length + (html.length - pos) := by simp
          have hadjS : pyIndexClamp (A ++ html.drop pos).length
              (↑m.mstart + ((A.length : Int) - (pos : Int)))
              = A.length + (m.mstart - pos) := by
            unfold pyIndexClamp
            rw [if_neg (by omega)]
            rw [hlen1]
            have hv : (↑m.mstart + ((A.length : Int) - (pos : Int))).toNat
                = A.length + (m.mstart - pos) := by omega
            rw [hv]
            omega
          have hadjE : pyIndexClamp (A ++ html.drop pos).length
              (↑(m.mstart + m.mlen) + ((A.length : Int) - (pos : Int)))
              = A.length + (m.mstart + m.mlen - pos) := by
            unfold pyIndexClamp
            rw [if_neg (by omega)]
            rw [hlen1]
            have hv : (↑(m.mstart + m.mlen)
                + ((A.length : Int) - (pos : Int))).toNat
                = A.length + (m.mstart + m.mlen - pos) := by omega
            rw [hv]
            omega
          rw [hadjS, hadjE]
          have htake : (A ++ html.drop pos).take (A.length + (m.mstart - pos))
              = A ++ (html.drop pos).take (m.mstart - pos) := by
            rw [List.take_append_eq_append_take]
            congr 1
            · rw [List.take_of_length_le (by omega)]
            · congr 1
              omega
          have hdrop : (A ++ html.drop pos).drop
              (A.length + (m.mstart + m.mlen - pos))
              = html.drop (m.mstart + m.mlen) := by
            rw [List.drop_append_eq_append_drop]
            rw [List.drop_of_length_le (by omega)]
            rw [List.nil_append, List.drop_drop]
            congr 1
            omega
          rw [htake, hdrop]
          set repl := pyReplace ((html.drop m.mstart).take m.mlen) m.mgroup lp
            with hrepl
          have hlenTake : ((html.drop pos).take (m.mstart - pos)).length
              = m.mstart - pos := by
            simp
            omega
          have hoffEq : ((A.length : Int) - (pos : Int)
                + ↑repl.length - ↑m.mlen)
              = (((A ++ (html.drop pos).take (m.mstart - pos) ++ repl).length
                  : Int) - ((m.mstart + m.mlen : Nat) : Int)) := by
            simp [hlenTake]
            omega
          have hrec := ih (m.mstart + m.mlen)
            (A ++ (html.drop pos).take (m.mstart - pos) ++ repl)
            (acc ++ [⟨urljoin base m.mgroup, lp⟩]) hch'
          rw [← hoffEq] at hrec
          simp only [List.append_assoc] at hrec ⊢
          rw [hrec]
          simp only [List.singleton_append]
        · rw [if_neg hlp]
          push_neg at hlp
          have hreplc : replFor dl base html m
              = (html.drop m.mstart).take m.mlen := by
            rw [replFor, hdl]
            dsimp only
            rw [if_neg (by simp [hlp])]
          have hrecc : recFor dl base m = none := by
            rw [recFor, hdl]
            dsimp only
            rw [if_neg (by simp [hlp])]
          rw [hreplc, List.filterMap_cons, hrecc]
          dsimp only
          have hsplit : html.drop pos
              = (html.drop pos).take (m.mstart + m.mlen - pos)
                ++ html.drop (m.mstart + m.mlen) := by
            conv_lhs => rw [← List.take_append_drop
              (m.mstart + m.mlen - pos) (html.drop pos)]
            rw [List.drop_drop]
            congr 2
            omega
          have hlenA : ((A ++ (html.drop pos).take
              (m.mstart + m.mlen - pos)).length : Int)
              - ((m.mstart + m.mlen : Nat) : Int)
              = (A.length : Int) - (pos : Int) := by
            have hlt : ((html.drop pos).take
                (m.mstart + m.mlen - pos)).length
                = m.mstart + m.mlen - pos := by
              simp
              omega
            simp [hlt]
            omega
          have hrec := ih (m.mstart + m.mlen)
            (A ++ (html.drop pos).take (m.mstart + m.mlen - pos)) acc hch'
          rw [hlenA, List.append_assoc, ← hsplit] at hrec
          rw [hrec]
          have htk : (html.drop pos).take (m.mstart + m.mlen - pos)
              = (html.drop pos).take (m.mstart - pos)
                ++ (html.drop m.mstart).take m.mlen := by
            have hd : html.drop m.mstart
                = (html.drop pos).drop (m.mstart - pos) := by
              rw [List.drop_drop]
              congr 1
              omega
            rw [hd, ← List.take_add]
            congr 1
            omega
          rw [htk]
          congr 1
          simp only [List.append_assoc]

theorem extract_images_eq_spec (dl : PyStr → Option PyStr)
    (base html : PyStr) :
    extract_and_download_images_in_html dl base html
      = (rewriteSpec dl base html (finditerImg html 0) 0,
         (finditerImg html 0).filterMap (recFor dl base)) := by
  unfold extract_and_download_images_in_html
  by_cases h : html = []
  · subst h
    simp [finditerImg, finditerImgAux, rewriteSpec]
  · rw [if_neg h]
    have hch := finditerImg_chained html
    have := rewriteLoop_eq_spec dl base html (finditerImg html 0) 0 [] [] hch
    simpa using this

theorem rewriteSpec_allfail (dl : PyStr → Option PyStr) (base html : PyStr)
    (hdl : ∀ u, dl u = none) :
    ∀ (ms : List ImgMatch) (pos : Nat), Chained html.length pos ms →
      rewriteSpec dl base html ms pos = html.drop pos := by
  intro ms
  induction ms with
  | nil =>
    intro pos _
    rw [rewriteSpec]
  | cons m ms ih =>
    intro pos hch
    cases hch with
    | cons _ _ _ hpm hlen hbound hch' =>
      rw [rewriteSpec]
      have hreplc : replFor dl base html m
          = (html.drop m.mstart).take m.mlen := by
        rw [replFor, hdl]
      rw [hreplc, ih _ hch']
      have hd1 : html.drop m.mstart
          = (html.drop pos).drop (m.mstart - pos) := by
        rw [List.drop_drop]
        congr 1
        omega
      have hd2 : html.drop (m.mstart + m.mlen)
          = ((html.drop pos).drop (m.mstart - pos)).drop m.mlen := by
        rw [List.drop_drop, List.drop_drop]
        congr 1
        omega
      rw [hd1, hd2]
      rw [List.append_assoc, List.take_append_drop, List.take_append_drop]

theorem recFor_allfail (dl : PyStr → Option PyStr) (base : PyStr)
    (hdl : ∀ u, dl u = none) (ms : List ImgMatch) :
    ms.filterMap (recFor dl base) = [] := by
  rw [List.filterMap_eq_nil_iff]
  intro m _
  rw [recFor, hdl]

/-- C5 counterexample: when the src URL also occurs elsewhere inside the
matched tag (here in an `alt` attribute), `str.replace` rewrites EVERY
occurrence inside the tag, so other tag content is not preserved: the claim
predicts `alt` keeps `http://x/a.png`, the code rewrites it too. -/
theorem C5_counterexample :
    extract_and_download_images_in_html
        (fun u => if u = pys "http://x/a.png" then some (pys "images/a.png")
          else none)
        (pys "http://x/")
        (pys "<img alt=\"http://x/a.png\" src=\"http://x/a.png\">")
      = (pys "<img alt=\"images/a.png\" src=\"images/a.png\">",
         [⟨pys "http://x/a.png", pys "images/a.png"⟩]) ∧
    (extract_and_download_images_in_html
        (fun u => if u = pys "http://x/a.png" then some (pys "images/a.png")
          else none)
        (pys "http://x/")
        (pys "<img alt=\"http://x/a.png\" src=\"http://x/a.png\">")).1
      ≠ pys "<img alt=\"http://x/a.png\" src=\"images/a.png\">" :=
  ⟨by decide, by decide⟩

/-- C5 (amended): the rewriter output is exactly the concatenation of the
original inter-tag segments with, for each matched tag whose download is
truthy, the tag text with EVERY occurrence of the captured URL substring
replaced by the returned local path (`rewriteSpec`/`replFor`); text outside
the matched tags is byte-identical. In particular, for a fragment with two
img tags with distinct URLs (each occurring only as the src value) and a
downloader that succeeds for both, the surrounding text is unchanged and
each src points at the downloader-returned local path. -/
theorem C5_rewrite_tag_replacement :
    (∀ (dl : PyStr → Option PyStr) (base html : PyStr),
      extract_and_download_images_in_html dl base html
        = (rewriteSpec dl base html (finditerImg html 0) 0,
           (finditerImg html 0).filterMap (recFor dl base))) ∧
    extract_and_download_images_in_html
        (fun u => if u = pys "http://x/a.png" then some (pys "images/a.png")
          else if u = pys "http://x/b.png" then some (pys "images/b.png")
          else none)
        (pys "http://x/")
        (pys "AAA <img src=\"http://x/a.png\"> BBB <img src=\"http://x/b.png\"> CCC")
      = (pys "AAA <img src=\"images/a.png\"> BBB <img src=\"images/b.png\"> CCC",
         [⟨pys "http://x/a.png", pys "images/a.png"⟩,
          ⟨pys "http://x/b.png", pys "images/b.png"⟩]) :=
  ⟨extract_images_eq_spec, by decide⟩

/-- C6: failed downloads contribute nothing to the `downloaded` list
(`recFor` is `none` exactly when the downloader result is falsy), an
all-failing downloader leaves the HTML byte-identical, empty input returns
unchanged with an empty list, and in the two-image fragment with exactly one
success the failed tag keeps its original URL verbatim and the list has
exactly one entry. -/
theorem C6_failure_and_empty_behaviour :
    (∀ (dl : PyStr → Option PyStr) (base html : PyStr),
      (extract_and_download_images_in_html dl base html).2
        = (finditerImg html 0).filterMap (recFor dl base)) ∧
    (∀ (dl : PyStr → Option PyStr) (base html : PyStr),
      (∀ u, dl u = none) →
      extract_and_download_images_in_html dl base html = (html, [])) ∧
    (∀ (dl : PyStr → Option PyStr) (base : PyStr),
      extract_and_download_images_in_html dl base [] = ([], [])) ∧
    extract_and_download_images_in_html
        (fun u => if u = pys "http://x/a.png" then some (pys "images/a.png")
          else none)
        (pys "http://x/")
        (pys "AAA <img src=\"http://x/a.png\"> BBB <img src=\"http://x/b.png\"> CCC")
      = (pys "AAA <img src=\"images/a.png\"> BBB <img src=\"http://x/b.png\"> CCC",
         [⟨pys "http://x/a.png", pys "images/a.png"⟩]) := by
  refine ⟨?_, ?_, ?_, by decide⟩
  · intro dl base html
    rw [extract_images_eq_spec]
  · intro dl base html hdl
    rw [extract_images_eq_spec]
    rw [rewriteSpec_allfail dl base html hdl _ 0 (finditerImg_chained html)]
    rw [recFor_allfail dl base hdl]
    rw [List.drop_zero]
  · intro dl base
    simp [extract_and_download_images_in_html]

/-- C6 witness: the all-fail clause applied at a concrete fragment: the
output retains the input verbatim with an empty downloaded list. -/
theorem C6_witness :
    extract_and_download_images_in_html (fun _ => none) (pys "http://x/")
        (pys "AB <img src=\"http://x/a.png\"> CD")
      = (pys "AB <img src=\"http://x/a.png\"> CD", []) :=
  C6_failure_and_empty_behaviour.2.1 (fun _ => none) (pys "http://x/")
    (pys "AB <img src=\"http://x/a.png\"> CD") (fun _ => rfl)

/-- Python `str.strip()` with no argument: remove leading and trailing
whitespace. -/
def pyStrip (l : PyStr) : PyStr :=
  ((l.dropWhile pyIsSpace).reverse.dropWhile pyIsSpace).reverse

/-- Lines 906-930 of `save_items_as_files`: choose the HTML to process
(`content_encoded` when non-blank, else `description`), rewrite it, and
store the result back by comparing `html_to_process` against `description`
FIRST, then against `content_encoded`. Returns the final
(description, content_encoded) pair of the item record. -/
def processItemHtml (dl : PyStr → Option PyStr)
    (base description content_encoded : PyStr) : PyStr × PyStr :=
  let html_to_process :=
    if pyStrip content_encoded ≠ [] then content_encoded else description
  let rewritten_html :=
    (extract_and_download_images_in_html dl base html_to_process).1
  if html_to_process = description then (rewritten_html, content_encoded)
  else if html_to_process = content_encoded then
    (description, rewritten_html)
  else (description, content_encoded)

/-- C4 counterexample: when the entry's description equals its non-blank
rich-content string, the code compares `html_to_process == description`
first and stores the rewritten HTML into the DESCRIPTION, leaving
content_encoded untouched — the claim requires the opposite. -/
theorem C4_counterexample :
    processItemHtml
        (fun u => if u = pys "http://x/a.png" then some (pys "images/a.png")
          else none)
        (pys "http://x/")
        (pys "X <img src=\"http://x/a.png\"> Y")
        (pys "X <img src=\"http://x/a.png\"> Y")
      = (pys "X <img src=\"images/a.png\"> Y",
         pys "X <img src=\"http://x/a.png\"> Y") ∧
    pys "X <img src=\"images/a.png\"> Y"
      ≠ pys "X <img src=\"http://x/a.png\"> Y" :=
  ⟨by decide, by decide⟩

/-- C4 (amended): if the rich-content field is non-blank and differs from
the description, rewriting runs against it and is stored back into it with
the description untouched; if it is blank, rewriting runs against the
description and rich content is untouched; in the corner case where the
non-blank rich content EQUALS the description, the rewritten HTML is stored
into the description and the rich-content field is left untouched. -/
theorem C4_content_precedence (dl : PyStr → Option PyStr)
    (base desc ce : PyStr) :
    (pyStrip ce ≠ [] → ce ≠ desc →
      processItemHtml dl base desc ce
        = (desc, (extract_and_download_images_in_html dl base ce).1)) ∧
    (pyStrip ce = [] →
      processItemHtml dl base desc ce
        = ((extract_and_download_images_in_html dl base desc).1, ce)) ∧
    (pyStrip ce ≠ [] → ce = desc →
      processItemHtml dl base desc ce
        = ((extract_and_download_images_in_html dl base ce).1, ce)) := by
  refine ⟨?_, ?_, ?_⟩
  · intro hnb hne
    unfold processItemHtml
    rw [if_pos hnb, if_neg hne, if_pos rfl]
  · intro hb
    unfold processItemHtml
    rw [if_neg (show ¬ (pyStrip ce ≠ []) from fun hne => hne hb),
      if_pos rfl]
  · intro hnb heq
    unfold processItemHtml
    rw [if_pos hnb, heq, if_pos rfl]

/-- C4 witness: the non-blank, distinct-fields clause applied at concrete
inputs: content_encoded is rewritten, description untouched. -/
theorem C4_witness :
    processItemHtml
        (fun u => if u = pys "http://x/a.png" then some (pys "images/a.png")
          else none)
        (pys "http://x/")
        (pys "plain description")
        (pys "X <img src=\"http://x/a.png\"> Y")
      = (pys "plain description", pys "X <img src=\"images/a.png\"> Y") :=
  ((C4_content_precedence
      (fun u => if u = pys "http://x/a.png" then some (pys "images/a.png")
        else none)
      (pys "http://x/")
      (pys "plain description")
      (pys "X <img src=\"http://x/a.png\"> Y")).1
    (by decide) (by decide)).trans (by decide)

/-! ## `extract_all_media`

The feedparser entry is a structure of optional attributes (`none` models a
missing attribute, mirroring the `hasattr` checks); `dl url subfolder` is
`download_file(url, output_dir, subfolder, referer=base_url)`. Each record
stores the attribute dictionary the source builds (`meta` holds the
source-specific extra keys). -/

/-- Python `sub in s` substring containment. -/
def pySubstr (sub : PyStr) : PyStr → Bool
  | [] => sub.isEmpty
  | c :: r => sub.isPrefixOf (c :: r) || pySubstr sub r

/-- Python `x or y` on optional strings (empty string is falsy). -/
def pyOrStr (a b : Option PyStr) : Option PyStr :=
  match a with
  | some s => if s ≠ [] then some s else b
  | none => b

structure MediaRec where
  original_url : PyStr
  local_path : Option PyStr
  meta : List (PyStr × Option PyStr)
deriving DecidableEq, Repr

structure MediaThumb where
  url : Option PyStr
  width : Option PyStr
  height : Option PyStr
deriving DecidableEq, Repr

structure MediaContent where
  url : Option PyStr
  type : Option PyStr
  medium : Option PyStr
  filesize : Option PyStr
  duration : Option PyStr
  bitrate : Option PyStr
  width : Option PyStr
  height : Option PyStr
deriving DecidableEq, Repr

structure Enclosure where
  href : Option PyStr
  url : Option PyStr
  type : Option PyStr
  length : Option PyStr
deriving DecidableEq, Repr

/-- `itunes:image` / `googleplay:image` attribute value: a dict (with an
optional `href`) or a plain string. -/
inductive PyImgVal where
  | pdict (href : Option PyStr)
  | pstr (s : PyStr)
deriving DecidableEq, Repr

/-- `podcast:chapters` attribute value (non-dict values are skipped). -/
inductive PyChapters where
  | pdict (url : Option PyStr) (type : Option PyStr)
  | nondict
deriving DecidableEq, Repr

inductive PyTranscript where
  | pdict (url : Option PyStr) (type : Option PyStr)
      (language : Option PyStr)
  | nondict
deriving DecidableEq, Repr

/-- `podcast:transcript` attribute value: a single value or a list
(normalized to a list by the source). -/
inductive PyTransAttr where
  | single (t : PyTranscript)
  | plist (ts : List PyTranscript)
deriving DecidableEq, Repr

structure FeedEntry where
  media_thumbnail : Option (List MediaThumb)
  media_content : Option (List MediaContent)
  enclosures : Option (List Enclosure)
  itunes_image : Option PyImgVal
  googleplay_image : Option PyImgVal
  podcast_chapters : Option PyChapters
  podcast_transcript : Option PyTransAttr
  rawvoice_poster : Option PyStr
deriving DecidableEq, Repr

/-- The five buckets of the `downloaded` dictionary, in source order. -/
structure DownloadedMedia where
  images : List MediaRec
  audio : List MediaRec
  video : List MediaRec
  documents : List MediaRec
  other : List MediaRec
deriving DecidableEq, Repr

inductive MCat where
  | images
  | audio
  | video
  | documents
  | other
deriving DecidableEq, Repr

/-- The repeated source pattern
`local_path = download_file(url, output_dir, subfolder, referer=base_url)`
followed by `if local_path: downloaded[cat].append({...})`: yields a record
only when the result is truthy. -/
def guardDl (dl : PyStr → PyStr → Option PyStr) (url subfolder : PyStr)
    (meta : List (PyStr × Option PyStr)) : Option MediaRec :=
  match dl url subfolder with
  | some lp => if lp ≠ [] then some ⟨url, some lp, meta⟩ else none
  | none => none

/-- Classification of a `media:content` element (source order: image before
audio before video; substring test on `type`, equality on `medium`). -/
def classifyMediaContent (ty medium : PyStr) : MCat × PyStr :=
  if pySubstr (pys "image") ty || medium == pys "image" then
    (.images, pys "images")
  else if pySubstr (pys "audio") ty || medium == pys "audio" then
    (.audio, pys "audio")
  else if pySubstr (pys "video") ty || medium == pys "video" then
    (.video, pys "video")
  else (.other, pys "media")

/-- Classification of an enclosure by its MIME type. -/
def classifyEnclosure (ty : PyStr) : MCat × PyStr :=
  if pySubstr (pys "image") ty then (.images, pys "images")
  else if pySubstr (pys "audio") ty then (.audio, pys "audio")
  else if pySubstr (pys "video") ty then (.video, pys "video")
  else if pySubstr (pys "pdf") ty || pySubstr (pys "document") ty then
    (.documents, pys "documents")
  else (.other, pys "media")

/-- Section 1: `media:thumbnail` elements (always the images bucket). -/
def thumbRecs (dl : PyStr → PyStr → Option PyStr) (e : FeedEntry) :
    List MediaRec :=
  match e.media_thumbnail with
  | none => []
  | some thumbs =>
    thumbs.filterMap (fun thumb =>
      match thumb.url with
      | some turl =>
        if turl ≠ [] then
          guardDl dl turl (pys "images")
            [(pys "width", thumb.width), (pys "height", thumb.height)]
        else none
      | none => none)

/-- Section 2: `media:content` elements, classified by type/medium. -/
def mcRecs (dl : PyStr → PyStr → Option PyStr) (e : FeedEntry) :
    List (MCat × MediaRec) :=
  match e.media_content with
  | none => []
  | some ms =>
    ms.filterMap (fun media =>
      match media.url with
      | some murl =>
        if murl ≠ [] then
          match guardDl dl murl
              (classifyMediaContent (media.type.getD [])
                (media.medium.getD [])).2
              [(pys "type", some (media.type.getD [])),
               (pys "medium", some (media.medium.getD [])),
               (pys "filesize", media.filesize),
               (pys "duration", media.duration),
               (pys "bitrate", media.bitrate),
               (pys "width", media.width),
               (pys "height", media.height)] with
          | some r =>
            some ((classifyMediaContent (media.type.getD [])
              (media.medium.getD [])).1, r)
          | none => none
        else none
      | none => none)

/-- Section 3: enclosures, classified by MIME type. -/
def encRecs (dl : PyStr → PyStr → Option PyStr) (e : FeedEntry) :
    List (MCat × MediaRec) :=
  match e.enclosures with
  | none => []
  | some encs =>
    encs.filterMap (fun enclosure =>
      match pyOrStr enclosure.href enclosure.url with
      | some eurl =>
        if eurl ≠ [] then
          match guardDl dl eurl (classifyEnclosure (enclosure.type.getD [])).2
              [(pys "type", some (enclosure.type.getD [])),
               (pys "length", enclosure.length)] with
          | some r =>
            some ((classifyEnclosure (enclosure.type.getD [])).1, r)
          | none => none
        else none
      | none => none)

/-- `img_url` extraction shared by sections 4 and 5 (`.get('href')` for a
dict, `str(value) if value else None` otherwise). -/
def imgUrlFromVal (v : PyImgVal) : Option PyStr :=
  match v with
  | .pdict href => href
  | .pstr s => if s ≠ [] then some s else none

/-- Section 4: `itunes:image`. -/
def itunesRecs (dl : PyStr → PyStr → Option PyStr) (e : FeedEntry) :
    List MediaRec :=
  match e.itunes_image with
  | none => []
  | some v =>
    match imgUrlFromVal v with
    | some iurl =>
      if iurl ≠ [] then
        (guardDl dl iurl (pys "images")
          [(pys "source", some (pys "itunes:image"))]).toList
      else []
    | none => []

/-- Section 5: `googleplay:image`. -/
def gpRecs (dl : PyStr → PyStr → Option PyStr) (e : FeedEntry) :
    List MediaRec :=
  match e.googleplay_image with
  | none => []
  | some v =>
    match imgUrlFromVal v with
    | some iurl =>
      if iurl ≠ [] then
        (guardDl dl iurl (pys "images")
          [(pys "source", some (pys "googleplay:image"))]).toList
      else []
    | none => []

/-- Section 6: `podcast:chapters` (documents bucket). -/
def chapterRecs (dl : PyStr → PyStr → Option PyStr) (e : FeedEntry) :
    List MediaRec :=
  match e.podcast_chapters with
  | some (.pdict curl cty) =>
    match curl with
    | some u =>
      if u ≠ [] then
        (guardDl dl u (pys "documents")
          [(pys "type", some (pys "chapters")), (pys "mime_type", cty)]).toList
      else []
    | none => []
  | _ => []

/-- Section 7: `podcast:transcript` values, normalized to a list
(documents bucket). -/
def transcriptRecs (dl : PyStr → PyStr → Option PyStr) (e : FeedEntry) :
    List MediaRec :=
  match e.podcast_transcript with
  | none => []
  | some attr =>
    let ts := match attr with
      | .single t => [t]
      | .plist l => l
    ts.filterMap (fun t =>
      match t with
      | .pdict turl tty tlang =>
        match turl with
        | some u =>
          if u ≠ [] then
            guardDl dl u (pys "documents")
              [(pys "type", some (pys "transcript")),
               (pys "mime_type", tty), (pys "language", tlang)]
          else none
        | none => none
      | .nondict => none)

/-- Section 8: `rawvoice:poster` (images bucket). -/
def rvRecs (dl : PyStr → PyStr → Option PyStr) (e : FeedEntry) :
    List MediaRec :=
  match e.rawvoice_poster with
  | none => []
  | some poster =>
    if poster ≠ [] then
      (guardDl dl poster (pys "images")
        [(pys "source", some (pys "rawvoice:poster"))]).toList
    else []

/-- `extract_all_media(entry, output_dir, base_url)`: the five buckets in
the order the eight source sections append to them. -/
def extract_all_media (dl : PyStr → PyStr → Option PyStr) (e : FeedEntry) :
    DownloadedMedia :=
  let mc := mcRecs dl e
  let enc := encRecs dl e
  { images := thumbRecs dl e
      ++ (mc.filter (fun p => decide (p.1 = .images))).map Prod.snd
      ++ (enc.filter (fun p => decide (p.1 = .images))).map Prod.snd
      ++ itunesRecs dl e ++ gpRecs dl e ++ rvRecs dl e,
    audio := (mc.filter (fun p => decide (p.1 = .audio))).map Prod.snd
      ++ (enc.filter (fun p => decide (p.1 = .audio))).map Prod.snd,
    video := (mc.filter (fun p => decide (p.1 = .video))).map Prod.snd
      ++ (enc.filter (fun p => decide (p.1 = .video))).map Prod.snd,
    documents := (enc.filter (fun p => decide (p.1 = .documents))).map
        Prod.snd
      ++ chapterRecs dl e ++ transcriptRecs dl e,
    other := (mc.filter (fun p => decide (p.1 = .other))).map Prod.snd
      ++ (enc.filter (fun p => decide (p.1 = .other))).map Prod.snd }

/-- A record whose `local_path` is present and truthy. -/
def GoodRec (r : MediaRec) : Prop := ∃ p, r.local_path = some p ∧ p ≠ []

theorem guardDl_good {dl : PyStr → PyStr → Option PyStr} {url sf : PyStr}
    {meta : List (PyStr × Option PyStr)} {r : MediaRec}
    (h : guardDl dl url sf meta = some r) : GoodRec r := by
  unfold guardDl at h
  split at h
  · rename_i lp hlp
    split at h
    · rename_i hne
      simp at h
      exact ⟨lp, by rw [← h], hne⟩
    · exact absurd h (by simp)
  · exact absurd h (by simp)

theorem guardDl_none {url sf : PyStr} {meta : List (PyStr × Option PyStr)} :
    guardDl (fun _ _ => none) url sf meta = none := rfl

theorem thumbRecs_good {dl : PyStr → PyStr → Option PyStr} {e : FeedEntry} :
    ∀ r ∈ thumbRecs dl e, GoodRec r := by
  intro r hr
  unfold thumbRecs at hr
  split at hr
  · exact absurd hr (List.not_mem_nil r)
  · rw [List.mem_filterMap] at hr
    obtain ⟨thumb, _, hf⟩ := hr
    split at hf
    · split at hf
      · exact guardDl_good hf
      · exact absurd hf (by simp)
    · exact absurd hf (by simp)

theorem mcRecs_good {dl : PyStr → PyStr → Option PyStr} {e : FeedEntry} :
    ∀ cr ∈ mcRecs dl e, GoodRec cr.2 := by
  intro cr hcr
  unfold mcRecs at hcr
  split at hcr
  · exact absurd hcr (List.not_mem_nil cr)
  · rw [List.mem_filterMap] at hcr
    obtain ⟨media, _, hf⟩ := hcr
    split at hf
    · split at hf
      · split at hf
        · rename_i r0 hguard
          simp at hf
          rw [← hf]
          exact guardDl_good hguard
        · exact absurd hf (by simp)
      · exact absurd hf (by simp)
    · exact absurd hf (by simp)

theorem encRecs_good {dl : PyStr → PyStr → Option PyStr} {e : FeedEntry} :
    ∀ cr ∈ encRecs dl e, GoodRec cr.2 := by
  intro cr hcr
  unfold encRecs at hcr
  split at hcr
  · exact absurd hcr (List.not_mem_nil cr)
  · rw [List.mem_filterMap] at hcr
    obtain ⟨enclosure, _, hf⟩ := hcr
    split at hf
    · split at hf
      · split at hf
        · rename_i r0 hguard
          simp at hf
          rw [← hf]
          exact guardDl_good hguard
        · exact absurd hf (by simp)
      · exact absurd hf (by simp)
    · exact absurd hf (by simp)

theorem itunesRecs_good {dl : PyStr → PyStr → Option PyStr} {e : FeedEntry} :
    ∀ r ∈ itunesRecs dl e, GoodRec r := by
  intro r hr
  unfold itunesRecs at hr
  split at hr
  · exact absurd hr (List.not_mem_nil r)
  · split at hr
    · split at hr
      · rw [Option.mem_toList, Option.mem_def] at hr
        exact guardDl_good hr
      · exact absurd hr (List.not_mem_nil r)
    · exact absurd hr (List.not_mem_nil r)

theorem gpRecs_good {dl : PyStr → PyStr → Option PyStr} {e : FeedEntry} :
    ∀ r ∈ gpRecs dl e, GoodRec r := by
  intro r hr
  unfold gpRecs at hr
  split at hr
  · exact absurd hr (List.not_mem_nil r)
  · split at hr
    · split at hr
      · rw [Option.mem_toList, Option.mem_def] at hr
        exact guardDl_good hr
      · exact absurd hr (List.not_mem_nil r)
    · exact absurd hr (List.not_mem_nil r)

theorem chapterRecs_good {dl : PyStr → PyStr → Option PyStr}
    {e : FeedEntry} : ∀ r ∈ chapterRecs dl e, GoodRec r := by
  intro r hr
  unfold chapterRecs at hr
  split at hr
  · split at hr
    · split at hr
      · rw [Option.mem_toList, Option.mem_def] at hr
        exact guardDl_good hr
      · exact absurd hr (List.not_mem_nil r)
    · exact absurd hr (List.not_mem_nil r)
  · exact absurd hr (List.not_mem_nil r)

theorem transcriptRecs_good {dl : PyStr → PyStr → Option PyStr}
    {e : FeedEntry} : ∀ r ∈ transcriptRecs dl e, GoodRec r := by
  intro r hr
  unfold transcriptRecs at hr
  split at hr
  · exact absurd hr (List.not_mem_nil r)
  · rw [List.mem_filterMap] at hr
    obtain ⟨t, _, hf⟩ := hr
    split at hf
    · split at hf
      · split at hf
        · exact guardDl_good hf
        · exact absurd hf (by simp)
      · exact absurd hf (by simp)
    · exact absurd hf (by simp)

theorem rvRecs_good {dl : PyStr → PyStr → Option PyStr} {e : FeedEntry} :
    ∀ r ∈ rvRecs dl e, GoodRec r := by
  intro r hr
  unfold rvRecs at hr
  split at hr
  · exact absurd hr (List.not_mem_nil r)
  · split at hr
    · rw [Option.mem_toList, Option.mem_def] at hr
      exact guardDl_good hr
    · exact absurd hr (List.not_mem_nil r)

theorem thumbRecs_none (e : FeedEntry) :
    thumbRecs (fun _ _ => none) e = [] := by
  unfold thumbRecs
  split
  · rfl
  · rw [List.filterMap_eq_nil_iff]
    intro thumb _
    split
    · split
      · exact guardDl_none
      · rfl
    · rfl

theorem mcRecs_none (e : FeedEntry) :
    mcRecs (fun _ _ => none) e = [] := by
  unfold mcRecs
  split
  · rfl
  · rw [List.filterMap_eq_nil_iff]
    intro media _
    split
    · split
      · rw [guardDl_none]
      · rfl
    · rfl

theorem encRecs_none (e : FeedEntry) :
    encRecs (fun _ _ => none) e = [] := by
  unfold encRecs
  split
  · rfl
  · rw [List.filterMap_eq_nil_iff]
    intro enclosure _
    split
    · split
      · rw [guardDl_none]
      · rfl
    · rfl

theorem itunesRecs_none (e : FeedEntry) :
    itunesRecs (fun _ _ => none) e = [] := by
  unfold itunesRecs
  split
  · rfl
  · split
    · split
      · rw [guardDl_none]
        rfl
      · rfl
    · rfl

theorem gpRecs_none (e : FeedEntry) :
    gpRecs (fun _ _ => none) e = [] := by
  unfold gpRecs
  split
  · rfl
  · split
    · split
      · rw [guardDl_none]
        rfl
      · rfl
    · rfl

theorem chapterRecs_none (e : FeedEntry) :
    chapterRecs (fun _ _ => none) e = [] := by
  unfold chapterRecs
  split
  · split
    · split
      · rw [guardDl_none]
        rfl
      · rfl
    · rfl
  · rfl

theorem transcriptRecs_none (e : FeedEntry) :
    transcriptRecs (fun _ _ => none) e = [] := by
  unfold transcriptRecs
  split
  · rfl
  · rw [List.filterMap_eq_nil_iff]
    intro t _
    split
    · split
      · split
        · exact guardDl_none
        · rfl
      · rfl
    · rfl

theorem rvRecs_none (e : FeedEntry) :
    rvRecs (fun _ _ => none) e = [] := by
  unfold rvRecs
  split
  · rfl
  · split
    · rw [guardDl_none]
      rfl
    · rfl

theorem good_append {l1 l2 : List MediaRec}
    (h1 : ∀ r ∈ l1, GoodRec r) (h2 : ∀ r ∈ l2, GoodRec r) :
    ∀ r ∈ l1 ++ l2, GoodRec r := by
  intro r hr
  rcases List.mem_append.mp hr with h | h
  exacts [h1 r h, h2 r h]

theorem good_filter_snd {l : List (MCat × MediaRec)}
    {f : MCat × MediaRec → Bool} (hg : ∀ cr ∈ l, GoodRec cr.2) :
    ∀ r ∈ (l.filter f).map Prod.snd, GoodRec r := by
  intro r hr
  rw [List.mem_map] at hr
  obtain ⟨cr, hcr, hsnd⟩ := hr
  rw [List.mem_filter] at hcr
  rw [← hsnd]
  exact hg cr hcr.1

/-- C10: `extract_all_media` returns exactly the five buckets (the record
type), each an ordered list, and every element of every bucket carries a
present, non-empty `local_path` (records are appended only under the
`if local_path:` guard); a downloader that always returns null yields
entirely empty buckets — failed references are omitted, never recorded
with a null path. -/
theorem C10_media_buckets_invariant (dl : PyStr → PyStr → Option PyStr)
    (e : FeedEntry) :
    (∀ r ∈ (extract_all_media dl e).images ++ (extract_all_media dl e).audio
        ++ (extract_all_media dl e).video
        ++ (extract_all_media dl e).documents
        ++ (extract_all_media dl e).other, GoodRec r) ∧
    extract_all_media (fun _ _ => none) e
      = ⟨[], [], [], [], []⟩ := by
  constructor
  · have hmc := @mcRecs_good dl e
    have henc := @encRecs_good dl e
    have himgs : ∀ r ∈ (extract_all_media dl e).images, GoodRec r :=
      good_append (good_append (good_append (good_append (good_append
        thumbRecs_good (good_filter_snd hmc)) (good_filter_snd henc))
        itunesRecs_good) gpRecs_good) rvRecs_good
    have haud : ∀ r ∈ (extract_all_media dl e).audio, GoodRec r :=
      good_append (good_filter_snd hmc) (good_filter_snd henc)
    have hvid : ∀ r ∈ (extract_all_media dl e).video, GoodRec r :=
      good_append (good_filter_snd hmc) (good_filter_snd henc)
    have hdoc : ∀ r ∈ (extract_all_media dl e).documents, GoodRec r :=
      good_append (good_append (good_filter_snd henc) chapterRecs_good)
        transcriptRecs_good
    have hoth : ∀ r ∈ (extract_all_media dl e).other, GoodRec r :=
      good_append (good_filter_snd hmc) (good_filter_snd henc)
    exact good_append (good_append (good_append (good_append himgs haud)
      hvid) hdoc) hoth
  · simp [extract_all_media, thumbRecs_none, mcRecs_none, encRecs_none,
      itunesRecs_none, gpRecs_none, chapterRecs_none, transcriptRecs_none,
      rvRecs_none]

/-- C8: a `media:content` element with `medium='image'` and
`type='video/mp4'` is classified into the images bucket: `'image' in
'video/mp4'` is false but `medium == 'image'` fires in the FIRST branch, so
the medium wins for this input; the element is downloaded with subfolder
`images` (the downloader here only answers for subfolder `images`, so the
record's presence also certifies the directory used) and recorded under
`images`, with the remaining buckets empty. -/
theorem C8_medium_image_beats_type_video :
    classifyMediaContent (pys "video/mp4") (pys "image")
      = (.images, pys "images") ∧
    extract_all_media
        (fun u sf => if u = pys "http://x/v.mp4" ∧ sf = pys "images" then
          some (pys "images/v.mp4") else none)
        { media_thumbnail := none,
          media_content := some [⟨some (pys "http://x/v.mp4"),
            some (pys "video/mp4"), some (pys "image"),
            none, none, none, none, none⟩],
          enclosures := none, itunes_image := none, googleplay_image := none,
          podcast_chapters := none, podcast_transcript := none,
          rawvoice_poster := none }
      = { images := [⟨pys "http://x/v.mp4", some (pys "images/v.mp4"),
            [(pys "type", some (pys "video/mp4")),
             (pys "medium", some (pys "image")),
             (pys "filesize", none), (pys "duration", none),
             (pys "bitrate", none), (pys "width", none),
             (pys "height", none)]⟩],
          audio := [], video := [], documents := [], other := [] } :=
  ⟨by decide, by decide⟩

/-! ## `save_feed_metadata`

The channel object `f` is modelled with `attrs` for its string-valued
feedparser attributes (`none`-lookup = `hasattr` false) plus dedicated
fields for the structured attributes the source treats specially. The
metadata dict is an insertion-ordered association list; values are tagged
(`MetaVal.raw` stands for a structured feedparser value copied verbatim). -/

inductive MetaVal where
  | s (v : PyStr)
  | n (v : Nat)
  | sdict (kvs : List (PyStr × PyStr))
  | imgdict (url : Option PyStr) (local_path : PyStr)
      (title link width height : PyStr) (is_favicon : Bool)
  | emptyDict
  | raw (tag : PyStr)
deriving DecidableEq, Repr

structure FeedImage where
  href : Option PyStr
  url : Option PyStr
  title : Option PyStr
  link : Option PyStr
  width : Option PyStr
  height : Option PyStr
deriving DecidableEq, Repr

structure FeedObj where
  attrs : List (PyStr × PyStr)
  namespaces : Option PyStr
  cloud : Option PyStr
  textinput : Option PyStr
  skipdays : Option PyStr
  skiphours : Option PyStr
  tags : Option PyStr
  links : Option PyStr
  itunes_image : Option PyImgVal
  googleplay_image : Option PyImgVal
  image : Option FeedImage
deriving DecidableEq, Repr

def lookupStr : List (PyStr × PyStr) → PyStr → Option PyStr
  | [], _ => none
  | (k, v) :: r, key => if k = key then some v else lookupStr r key

/-- `getattr(f, name, '')`. -/
def getattrD (f : FeedObj) (name : PyStr) : PyStr :=
  (lookupStr f.attrs name).getD []

def lookupMeta : List (PyStr × MetaVal) → PyStr → Option MetaVal
  | [], _ => none
  | (k, v) :: r, key => if k = key then some v else lookupMeta r key

/-- Python dict assignment for a key that may already exist (used for the
final `metadata['image'] = {...}` overwrite). -/
def setKey : List (PyStr × MetaVal) → PyStr → MetaVal → List (PyStr × MetaVal)
  | [], k, v => [(k, v)]
  | (k0, v0) :: r, k, v =>
    if k0 = k then (k, v) :: r else (k0, v0) :: setKey r k v

/-- The initial `metadata = {...}` literal (core RSS channel fields,
defaulted to `''` / `{}` placeholders via `getattr(f, ..., '')`). -/
def baseKVs (f : FeedObj) (now : PyStr) (itemsCount : Nat) :
    List (PyStr × MetaVal) :=
  [(pys "namespaces",
      match f.namespaces with
      | some t => MetaVal.raw t
      | none => MetaVal.emptyDict),
   (pys "title", .s (getattrD f (pys "title"))),
   (pys "link", .s (getattrD f (pys "link"))),
   (pys "description", .s (getattrD f (pys "description"))),
   (pys "language", .s (getattrD f (pys "language"))),
   (pys "copyright", .s (getattrD f (pys "copyright"))),
   (pys "managingEditor", .s (getattrD f (pys "managingeditor"))),
   (pys "webMaster", .s (getattrD f (pys "webmaster"))),
   (pys "pubDate", .s (getattrD f (pys "published"))),
   (pys "lastBuildDate", .s (getattrD f (pys "updated"))),
   (pys "generator", .s (getattrD f (pys "generator"))),
   (pys "docs", .s (getattrD f (pys "docs"))),
   (pys "ttl", .s (getattrD f (pys "ttl"))),
   (pys "rating", .s (getattrD f (pys "rating"))),
   (pys "image", .emptyDict),
   (pys "fetched_at", .s now),
   (pys "items_count", .n itemsCount)]

/-- The repeated source loop `for field in tbl: if hasattr(f, field):
value = getattr(f, field); if value: metadata[field] = value`. -/
def strFieldsChunk (f : FeedObj) (tbl : List PyStr) :
    List (PyStr × MetaVal) :=
  tbl.filterMap (fun name =>
    match lookupStr f.attrs name with
    | some v => if v ≠ [] then some (name, MetaVal.s v) else none
    | none => none)

/-- `if hasattr(f, a): metadata[outKey] = f.a` for a structured value. -/
def rawChunk (outKey : PyStr) (v : Option PyStr) : List (PyStr × MetaVal) :=
  match v with
  | some t => [(outKey, .raw t)]
  | none => []

/-- The `itunes_image` / `googleplay_image` blocks: extract the URL, download
into `images/`, store `{url, local_path}` when the download is truthy. -/
def imgChunk (dl : PyStr → PyStr → Option PyStr) (outKey : PyStr)
    (v : Option PyImgVal) : List (PyStr × MetaVal) :=
  match v with
  | none => []
  | some iv =>
    match imgUrlFromVal iv with
    | some iurl =>
      if iurl ≠ [] then
        match dl iurl (pys "images") with
        | some lp =>
          if lp ≠ [] then
            [(outKey, .sdict [(pys "url", iurl), (pys "local_path", lp)])]
          else []
        | none => []
      else []
    | none => []

/-- The `rawvoice_poster` download block (`rawvoice_poster_local`). -/
def posterChunk (dl : PyStr → PyStr → Option PyStr) (f : FeedObj) :
    List (PyStr × MetaVal) :=
  match lookupStr f.attrs (pys "rawvoice_poster") with
  | some poster =>
    if poster ≠ [] then
      match dl poster (pys "images") with
      | some lp =>
        if lp ≠ [] then [(pys "rawvoice_poster_local", .s lp)] else []
      | none => []
    else []
  | none => []

/-- The regular-RSS-image resolution: download the declared channel image
when it has a URL, else (when the download is falsy and the channel has a
link) fall back to the favicon result `(favicon_url, favicon_local)`.
Returns the final (img_url, local_img). -/
def imageResolve (dl : PyStr → PyStr → Option PyStr)
    (favicon : Option PyStr × Option PyStr) (f : FeedObj) :
    Option PyStr × Option PyStr :=
  let p1 : Option PyStr × Option PyStr :=
    match f.image with
    | some fi =>
      let iu := if fi.href.getD [] ≠ [] then fi.href.getD []
        else fi.url.getD []
      if iu ≠ [] then (some iu, dl iu (pys "images")) else (some iu, none)
    | none => (none, none)
  if (match p1.2 with | some l => decide (l = []) | none => true)
      && !(getattrD f (pys "link")).isEmpty then
    match favicon.2 with
    | some fl => if fl ≠ [] then (favicon.1, some fl) else p1
    | none => p1
  else p1

/-- The final `metadata['image'] = {...}` value when `local_img` is truthy
(NULs stripped from the stored path; title/link/width/height fall back to
favicon placeholders when no feed image was declared). -/
def imageValue (dl : PyStr → PyStr → Option PyStr)
    (favicon : Option PyStr × Option PyStr) (f : FeedObj) : Option MetaVal :=
  match imageResolve dl favicon f with
  | (img_url, some li) =>
    if li ≠ [] then
      some (.imgdict img_url (li.filter (fun c => !(c == '\x00')))
        (match f.image with
          | some fi => fi.title.getD []
          | none => pys "Site Favicon")
        (match f.image with
          | some fi => fi.link.getD []
          | none => getattrD f (pys "link"))
        (match f.image with | some fi => fi.width.getD [] | none => [])
        (match f.image with | some fi => fi.height.getD [] | none => [])
        (!f.image.isSome))
    else none
  | (_, none) => none

def syChanFields : List PyStr :=
  [pys "sy_updateperiod", pys "sy_updatefrequency", pys "sy_updatebase"]

def dcChanFields : List PyStr :=
  [pys "dc_creator", pys "dc_rights", pys "dc_publisher",
   pys "dc_contributor", pys "dc_date", pys "dc_language", pys "dc_format",
   pys "dc_identifier", pys "dc_source", pys "dc_relation",
   pys "dc_coverage", pys "dc_type"]

def itunesChanFields : List PyStr :=
  [pys "itunes_author", pys "itunes_block", pys "itunes_category",
   pys "itunes_complete", pys "itunes_explicit", pys "itunes_new_feed_url",
   pys "itunes_owner", pys "itunes_subtitle", pys "itunes_summary",
   pys "itunes_type", pys "itunes_keywords"]

def googleplayChanFields : List PyStr :=
  [pys "googleplay_author", pys "googleplay_category",
   pys "googleplay_description", pys "googleplay_email",
   pys "googleplay_explicit", pys "googleplay_block", pys "googleplay_owner"]

def ccChanFields : List PyStr :=
  [pys "creativecommons_license", pys "creativecommons_attribution",
   pys "creativecommons_commercialuse", pys "creativecommons_derivatives"]

def rawvoiceChanFields : List PyStr :=
  [pys "rawvoice_rating", pys "rawvoice_location", pys "rawvoice_frequency",
   pys "rawvoice_subscribe", pys "rawvoice_donate", pys "rawvoice_poster"]

def podcastChanFields : List PyStr :=
  [pys "podcast_funding", pys "podcast_license", pys "podcast_locked",
   pys "podcast_location", pys "podcast_guid", pys "podcast_value",
   pys "podcast_person", pys "podcast_trailer", pys "podcast_liveitem",
   pys "podcast_medium", pys "podcast_images", pys "podcast_block",
   pys "podcast_txt", pys "podcast_remote", pys "podcast_chat",
   pys "podcast_socialinteract", pys "podcast_previousurl"]

def mediaChanFields : List PyStr :=
  [pys "media_copyright", pys "media_rating", pys "media_thumbnail",
   pys "media_keywords", pys "media_category"]

/-- `save_feed_metadata(feed, output_dir, images_dir, session)`: the
metadata record, blocks in source order. `dl` is `download_file`, `favicon`
the would-be `fetch_favicon` result, `now` the UTC timestamp, `itemsCount`
`len(feed.entries)`. -/
def save_feed_metadata (dl : PyStr → PyStr → Option PyStr)
    (favicon : Option PyStr × Option PyStr) (now : PyStr)
    (itemsCount : Nat) (f : FeedObj) : List (PyStr × MetaVal) :=
  let m := baseKVs f now itemsCount
    ++ strFieldsChunk f syChanFields
    ++ rawChunk (pys "cloud") f.cloud
    ++ rawChunk (pys "textInput") f.textinput
    ++ rawChunk (pys "skipDays") f.skipdays
    ++ rawChunk (pys "skipHours") f.skiphours
    ++ rawChunk (pys "categories") f.tags
    ++ rawChunk (pys "atom_links") f.links
    ++ strFieldsChunk f dcChanFields
    ++ strFieldsChunk f itunesChanFields
    ++ imgChunk dl (pys "itunes_image") f.itunes_image
    ++ strFieldsChunk f googleplayChanFields
    ++ imgChunk dl (pys "googleplay_image") f.googleplay_image
    ++ strFieldsChunk f ccChanFields
    ++ strFieldsChunk f rawvoiceChanFields
    ++ posterChunk dl f
    ++ strFieldsChunk f podcastChanFields
    ++ strFieldsChunk f mediaChanFields
  match imageValue dl favicon f with
  | some v => setKey m (pys "image") v
  | none => m

/-- All namespaced channel field names of the fixed tables, in source
order. -/
def nsChanFields : List PyStr :=
  syChanFields ++ dcChanFields ++ itunesChanFields ++ googleplayChanFields
    ++ ccChanFields ++ rawvoiceChanFields ++ podcastChanFields
    ++ mediaChanFields

/-- The metadata keys that are always present (the initial dict literal). -/
def coreOutKeys : List PyStr :=
  [pys "namespaces", pys "title", pys "link", pys "description",
   pys "language", pys "copyright", pys "managingEditor", pys "webMaster",
   pys "pubDate", pys "lastBuildDate", pys "generator", pys "docs",
   pys "ttl", pys "rating", pys "image", pys "fetched_at",
   pys "items_count"]

/-- The conditionally-added structured keys. -/
def specialOutKeys : List PyStr :=
  [pys "cloud", pys "textInput", pys "skipDays", pys "skipHours",
   pys "categories", pys "atom_links", pys "itunes_image",
   pys "googleplay_image", pys "rawvoice_poster_local"]

theorem lookupMeta_eq_none_of_keys (l : List (PyStr × MetaVal)) (k : PyStr)
    (h : ∀ kv ∈ l, kv.1 ≠ k) : lookupMeta l k = none := by
  induction l with
  | nil => rfl
  | cons kv r ih =>
    obtain ⟨k0, v0⟩ := kv
    simp only [lookupMeta]
    rw [if_neg (h (k0, v0) (List.mem_cons_self _ _))]
    exact ih (fun kv hkv => h kv (List.mem_cons_of_mem _ hkv))

theorem lookupMeta_isSome_of_mem_keys {l : List (PyStr × MetaVal)}
    {k : PyStr} (h : k ∈ l.map Prod.fst) : (lookupMeta l k).isSome := by
  induction l with
  | nil => simp at h
  | cons kv r ih =>
    obtain ⟨k0, v0⟩ := kv
    simp only [lookupMeta]
    by_cases hk : k0 = k
    · rw [if_pos hk]
      rfl
    · rw [if_neg hk]
      rw [List.map_cons, List.mem_cons] at h
      rcases h with h | h
      · exact absurd h.symm hk
      · exact ih h

theorem lookupMeta_isSome_append_left {a b : List (PyStr × MetaVal)}
    {k : PyStr} (h : (lookupMeta a k).isSome) :
    (lookupMeta (a ++ b) k).isSome := by
  induction a with
  | nil => simp [lookupMeta] at h
  | cons kv r ih =>
    obtain ⟨k0, v0⟩ := kv
    simp only [lookupMeta] at h
    simp only [List.cons_append, lookupMeta]
    by_cases hk : k0 = k
    · rw [if_pos hk]
      rfl
    · rw [if_neg hk] at h ⊢
      exact ih h

theorem lookupMeta_setKey_ne {m : List (PyStr × MetaVal)} {key k : PyStr}
    {v : MetaVal} (hne : k ≠ key) :
    lookupMeta (setKey m key v) k = lookupMeta m k := by
  induction m with
  | nil =>
    simp only [setKey, lookupMeta]
    rw [if_neg (fun h => hne h.symm)]
  | cons kv r ih =>
    obtain ⟨k0, v0⟩ := kv
    simp only [setKey]
    by_cases hk : k0 = key
    · rw [if_pos hk]
      simp only [lookupMeta]
      rw [if_neg (fun h => hne h.symm),
        if_neg (show ¬ (k0 = k) from by rw [hk]; exact fun h => hne h.symm)]
    · rw [if_neg hk]
      simp only [lookupMeta]
      by_cases hk0 : k0 = k
      · rw [if_pos hk0, if_pos hk0]
      · rw [if_neg hk0, if_neg hk0]
        exact ih

theorem lookupMeta_setKey_isSome {m : List (PyStr × MetaVal)}
    {key k : PyStr} {v : MetaVal} (h : (lookupMeta m k).isSome) :
    (lookupMeta (setKey m key v) k).isSome := by
  induction m with
  | nil => simp [lookupMeta] at h
  | cons kv r ih =>
    obtain ⟨k0, v0⟩ := kv
    simp only [lookupMeta] at h
    simp only [setKey]
    by_cases hk : k0 = key
    · rw [if_pos hk]
      simp only [lookupMeta]
      by_cases hkey : key = k
      · rw [if_pos hkey]
        rfl
      · rw [if_neg hkey]
        rw [hk] at h
        rw [if_neg hkey] at h
        exact h
    · rw [if_neg hk]
      simp only [lookupMeta]
      by_cases hk0 : k0 = k
      · rw [if_pos hk0]
        rfl
      · rw [if_neg hk0] at h ⊢
        exact ih h

theorem keysNe_append {l1 l2 : List (PyStr × MetaVal)} {name : PyStr}
    (h1 : ∀ kv ∈ l1, kv.1 ≠ name) (h2 : ∀ kv ∈ l2, kv.1 ≠ name) :
    ∀ kv ∈ l1 ++ l2, kv.1 ≠ name := by
  intro kv hkv
  rcases List.mem_append.mp hkv with h | h
  exacts [h1 kv h, h2 kv h]

theorem strFieldsChunk_keysNe {f : FeedObj} {name : PyStr}
    (habs : lookupStr f.attrs name = none ∨
      lookupStr f.attrs name = some []) (tbl : List PyStr) :
    ∀ kv ∈ strFieldsChunk f tbl, kv.1 ≠ name := by
  intro kv hkv heq
  unfold strFieldsChunk at hkv
  rw [List.mem_filterMap] at hkv
  obtain ⟨nm, _, hf⟩ := hkv
  split at hf
  · rename_i v hv
    split at hf
    · rename_i hne
      simp at hf
      rw [← hf] at heq
      simp at heq
      rw [heq] at hv
      rcases habs with h | h
      · rw [h] at hv
        exact absurd hv (by simp)
      · rw [h] at hv
        simp at hv
        exact hne hv
    · exact absurd hf (by simp)
  · exact absurd hf (by simp)

theorem rawChunk_key {outKey : PyStr} {v : Option PyStr} :
    ∀ kv ∈ rawChunk outKey v, kv.1 = outKey := by
  intro kv hkv
  unfold rawChunk at hkv
  split at hkv
  · simp at hkv
    rw [hkv]
  · exact absurd hkv (List.not_mem_nil kv)

theorem imgChunk_key {dl : PyStr → PyStr → Option PyStr} {outKey : PyStr}
    {v : Option PyImgVal} : ∀ kv ∈ imgChunk dl outKey v, kv.1 = outKey := by
  intro kv hkv
  unfold imgChunk at hkv
  split at hkv
  · exact absurd hkv (List.not_mem_nil kv)
  · split at hkv
    · split at hkv
      · split at hkv
        · split at hkv
          · simp at hkv
            rw [hkv]
          · exact absurd hkv (List.not_mem_nil kv)
        · exact absurd hkv (List.not_mem_nil kv)
      · exact absurd hkv (List.not_mem_nil kv)
    · exact absurd hkv (List.not_mem_nil kv)

theorem posterChunk_key {dl : PyStr → PyStr → Option PyStr} {f : FeedObj} :
    ∀ kv ∈ posterChunk dl f, kv.1 = pys "rawvoice_poster_local" := by
  intro kv hkv
  unfold posterChunk at hkv
  split at hkv
  · split at hkv
    · split at hkv
      · split at hkv
        · simp at hkv
          rw [hkv]
        · exact absurd hkv (List.not_mem_nil kv)
      · exact absurd hkv (List.not_mem_nil kv)
    · exact absurd hkv (List.not_mem_nil kv)
  · exact absurd hkv (List.not_mem_nil kv)

theorem ns_disjoint :
    ∀ x ∈ nsChanFields, x ∉ coreOutKeys ∧ x ∉ specialOutKeys := by decide

/-- C7 counterexample: for a feed with no channel attributes at all, the
record still contains `title` bound to the empty string (and likewise every
core field): absent core fields are defaulted to placeholders, not omitted;
moreover a feed whose `title` is present-but-empty produces the IDENTICAL
record, so absent is not distinguishable from present-but-empty. -/
theorem C7_counterexample :
    lookupMeta
        (save_feed_metadata (fun _ _ => none) (none, none) (pys "T") 0
          ⟨[], none, none, none, none, none, none, none, none, none, none⟩)
        (pys "title")
      = some (.s []) ∧
    save_feed_metadata (fun _ _ => none) (none, none) (pys "T") 0
        ⟨[(pys "title", [])], none, none, none, none, none, none, none,
         none, none, none⟩
      = save_feed_metadata (fun _ _ => none) (none, none) (pys "T") 0
        ⟨[], none, none, none, none, none, none, none, none, none, none⟩ :=
  ⟨by decide, by decide⟩

/-- C7 (amended): every namespaced extension field of the fixed tables that
is absent from the feed — or present but empty, which the `if value:`
truthiness check treats the same way — is omitted from the record; the core
channel fields of the initial dict literal (title, link, ..., image,
fetched_at, items_count) are always present, defaulted to empty
placeholders, so for them an absent field is NOT distinguishable from a
present-but-empty one. -/
theorem C7_metadata_field_presence (dl : PyStr → PyStr → Option PyStr)
    (favicon : Option PyStr × Option PyStr) (now : PyStr) (n : Nat)
    (f : FeedObj) :
    (∀ name ∈ nsChanFields,
      (lookupStr f.attrs name = none ∨ lookupStr f.attrs name = some []) →
      lookupMeta (save_feed_metadata dl favicon now n f) name = none) ∧
    (∀ key ∈ coreOutKeys,
      (lookupMeta (save_feed_metadata dl favicon now n f) key).isSome) := by
  constructor
  · intro name hname habs
    have hdis := ns_disjoint name hname
    have hbase : ∀ kv ∈ baseKVs f now n, kv.1 ≠ name := by
      intro kv hkv heq
      apply hdis.1
      have hm : kv.1 ∈ (baseKVs f now n).map Prod.fst :=
        List.mem_map_of_mem Prod.fst hkv
      rw [show (baseKVs f now n).map Prod.fst = coreOutKeys from rfl] at hm
      rw [← heq]
      exact hm
    have hspec : ∀ (key : PyStr), key ∈ specialOutKeys →
        ∀ kv : PyStr × MetaVal, kv.1 = key → kv.1 ≠ name := by
      intro key hkey kv hkvkey heq
      apply hdis.2
      rw [← heq, hkvkey]
      exact hkey
    have hstr := strFieldsChunk_keysNe habs
    have hkeys : ∀ kv ∈ baseKVs f now n
        ++ strFieldsChunk f syChanFields
        ++ rawChunk (pys "cloud") f.cloud
        ++ rawChunk (pys "textInput") f.textinput
        ++ rawChunk (pys "skipDays") f.skipdays
        ++ rawChunk (pys "skipHours") f.skiphours
        ++ rawChunk (pys "categories") f.tags
        ++ rawChunk (pys "atom_links") f.links
        ++ strFieldsChunk f dcChanFields
        ++ strFieldsChunk f itunesChanFields
        ++ imgChunk dl (pys "itunes_image") f.itunes_image
        ++ strFieldsChunk f googleplayChanFields
        ++ imgChunk dl (pys "googleplay_image") f.googleplay_image
        ++ strFieldsChunk f ccChanFields
        ++ strFieldsChunk f rawvoiceChanFields
        ++ posterChunk dl f
        ++ strFieldsChunk f podcastChanFields
        ++ strFieldsChunk f mediaChanFields, kv.1 ≠ name := by
      refine keysNe_append (keysNe_append (keysNe_append (keysNe_append
        (keysNe_append (keysNe_append (keysNe_append (keysNe_append
        (keysNe_append (keysNe_append (keysNe_append (keysNe_append
        (keysNe_append (keysNe_append (keysNe_append (keysNe_append
        (keysNe_append hbase (hstr _)) ?_) ?_) ?_) ?_) ?_) ?_)
        (hstr _)) (hstr _)) ?_) (hstr _)) ?_) (hstr _)) (hstr _)) ?_)
        (hstr _)) (hstr _)
      · exact fun kv hkv => hspec _ (by decide) kv (rawChunk_key kv hkv)
      · exact fun kv hkv => hspec _ (by decide) kv (rawChunk_key kv hkv)
      · exact fun kv hkv => hspec _ (by decide) kv (rawChunk_key kv hkv)
      · exact fun kv hkv => hspec _ (by decide) kv (rawChunk_key kv hkv)
      · exact fun kv hkv => hspec _ (by decide) kv (rawChunk_key kv hkv)
      · exact fun kv hkv => hspec _ (by decide) kv (rawChunk_key kv hkv)
      · exact fun kv hkv => hspec _ (by decide) kv (imgChunk_key kv hkv)
      · exact fun kv hkv => hspec _ (by decide) kv (imgChunk_key kv hkv)
      · exact fun kv hkv => hspec _ (by decide) kv (posterChunk_key kv hkv)
    have hnimg : name ≠ pys "image" := by
      intro heq
      exact hdis.1 (by rw [heq]; decide)
    simp only [save_feed_metadata]
    split
    · rw [lookupMeta_setKey_ne hnimg]
      exact lookupMeta_eq_none_of_keys _ _ hkeys
    · exact lookupMeta_eq_none_of_keys _ _ hkeys
  · intro key hkey
    have h1 : (lookupMeta (baseKVs f now n) key).isSome :=
      lookupMeta_isSome_of_mem_keys
        (by rw [show (baseKVs f now n).map Prod.fst = coreOutKeys from rfl]
            exact hkey)
    simp only [save_feed_metadata]
    split
    · apply lookupMeta_setKey_isSome
      repeat apply lookupMeta_isSome_append_left
      exact h1
    · repeat apply lookupMeta_isSome_append_left
      exact h1

/-- C10 witness: the bucket invariant applied at a concrete entry whose
single media-content element downloads successfully. -/
theorem C10_witness :
    GoodRec ⟨pys "http://x/v.mp4", some (pys "images/v.mp4"),
      [(pys "type", some (pys "video/mp4")),
       (pys "medium", some (pys "image")),
       (pys "filesize", none), (pys "duration", none),
       (pys "bitrate", none), (pys "width", none),
       (pys "height", none)]⟩ :=
  (C10_media_buckets_invariant
    (fun u sf => if u = pys "http://x/v.mp4" ∧ sf = pys "images" then
      some (pys "images/v.mp4") else none)
    { media_thumbnail := none,
      media_content := some [⟨some (pys "http://x/v.mp4"),
        some (pys "video/mp4"), some (pys "image"),
        none, none, none, none, none⟩],
      enclosures := none, itunes_image := none, googleplay_image := none,
      podcast_chapters := none, podcast_transcript := none,
      rawvoice_poster := none }).1
    ⟨pys "http://x/v.mp4", some (pys "images/v.mp4"),
      [(pys "type", some (pys "video/mp4")),
       (pys "medium", some (pys "image")),
       (pys "filesize", none), (pys "duration", none),
       (pys "bitrate", none), (pys "width", none),
       (pys "height", none)]⟩
    (by decide)

/-- C7 witness: on the attribute-less feed, an absent namespaced field
(`dc_creator`) is omitted while the core `title` key is present. -/
theorem C7_witness :
    lookupMeta
        (save_feed_metadata (fun _ _ => none) (none, none) (pys "T") 0
          ⟨[], none, none, none, none, none, none, none, none, none, none⟩)
        (pys "dc_creator")
      = none ∧
    (lookupMeta
        (save_feed_metadata (fun _ _ => none) (none, none) (pys "T") 0
          ⟨[], none, none, none, none, none, none, none, none, none, none⟩)
        (pys "title")).isSome :=
  ⟨(C7_metadata_field_presence (fun _ _ => none) (none, none) (pys "T") 0
      ⟨[], none, none, none, none, none, none, none, none, none, none⟩).1
      (pys "dc_creator") (by decide) (Or.inl rfl),
   (C7_metadata_field_presence (fun _ _ => none) (none, none) (pys "T") 0
      ⟨[], none, none, none, none, none, none, none, none, none, none⟩).2
      (pys "title") (by decide)⟩

end RSSDumper
